import Mathlib

/-!
Verification development for the tenders-site scraping pipeline
(`src/scripts/scraper.py`).

The Python source is shallowly embedded: pure helper functions become Lean
functions over `String` / `List Char`; the `requests` transport and the
BeautifulSoup markup-query collaborator are out of scope per the design
document (§1, §6), so each adapter's parse stage is modelled as a function of
the already-located candidate fragments, with every field the Python code
reads from a fragment represented as a field of a small structure.  Machine
integers do not occur; all numbers are `Nat`.  The fixed `re` patterns used
by the extractors are embedded as explicit scanning functions implementing
leftmost search with the greedy/lazy alternative order of the corresponding
pattern.  `datetime.strptime` for the five fixed formats is embedded at the
level of CPython's `_strptime` field regexes (`%d` ↦ `3[01]|[12]\d|0[1-9]|[1-9]`
etc., full-string match, calendar validation, 2-digit-year pivot), and
`strftime('%Y-%m-%d')` as zero-padded ISO rendering.
-/

/-! ## String primitives (Python `in`, `lower`, `strip`, `or`, comparison) -/

/-- Is `n` a prefix of `h`? (chars compared by code point). -/
def prefixOf : List Char → List Char → Bool
  | [], _ => true
  | _ :: _, [] => false
  | a :: as, b :: bs => a = b && prefixOf as bs

/-- Python `n in h` substring containment on char lists. -/
def isSubL (n : List Char) : List Char → Bool
  | [] => prefixOf n []
  | c :: t => prefixOf n (c :: t) || isSubL n t

/-- Python `needle in hay` for strings. -/
def hasSub (hay needle : String) : Bool := isSubL needle.data hay.data

/-- ASCII lowercasing of one char; non-ASCII (e.g. Hebrew) unchanged,
matching Python `str.lower` on the alphabets occurring in the keyword maps. -/
def lowerC (c : Char) : Char :=
  if 'A' ≤ c && c ≤ 'Z' then Char.ofNat (c.toNat + 32) else c

/-- `str.lower` on strings. -/
def lowerS (s : String) : String := ⟨s.data.map lowerC⟩

/-- whitespace set of `str.strip` / `\s` (ASCII subset). -/
def isSpaceC (c : Char) : Bool :=
  c = ' ' || c = '\t' || c = '\n' || c = '\r' || c.toNat = 11 || c.toNat = 12

/-- `str.strip()` on char lists. -/
def stripL (l : List Char) : List Char :=
  ((l.dropWhile isSpaceC).reverse.dropWhile isSpaceC).reverse

/-- `str.strip()` on strings. -/
def stripS (s : String) : String := ⟨stripL s.data⟩

/-- Python string `<` : lexicographic by code point. -/
def lexLt : List Char → List Char → Bool
  | [], [] => false
  | [], _ :: _ => true
  | _ :: _, [] => false
  | a :: as, b :: bs =>
    if a.toNat < b.toNat then true
    else if b.toNat < a.toNat then false
    else lexLt as bs

/-- Python string `<=` for sort comparisons: `a <= b ↔ ¬ b < a`. -/
def strLeB (a b : String) : Bool := !(lexLt b.data a.data)

/-- Python `a or b` for strings (`a` falsy iff empty). -/
def strOr (a b : String) : String := if a = "" then b else a

/-- Python `x or b` where `x` is an optional string (`None` and `''` falsy). -/
def pyOrStr (a : Option String) (b : String) : String :=
  match a with
  | some s => if s = "" then b else s
  | none => b

/-- Python truthiness of an optional string. -/
def pyTruthy (a : Option String) : Bool :=
  match a with
  | some s => !(s = "")
  | none => false

/-- `str.startswith` on strings. -/
def startsWithS (s p : String) : Bool := prefixOf p.data s.data

/-! ## Date model and `parse_date` (`TenderScraper.parse_date`, lines 85-102) -/

/-- A calendar date as carried by `datetime`. -/
structure Date where
  y : Nat
  m : Nat
  d : Nat
deriving DecidableEq, Repr

/-- Gregorian leap-year rule used by `datetime`. -/
def isLeap (y : Nat) : Bool := (y % 4 = 0 && y % 100 ≠ 0) || y % 400 = 0

/-- Days in a month per `datetime`. -/
def daysInMonth (y m : Nat) : Nat :=
  match m with
  | 1 => 31 | 2 => if isLeap y then 29 else 28 | 3 => 31 | 4 => 30
  | 5 => 31 | 6 => 30 | 7 => 31 | 8 => 31 | 9 => 30 | 10 => 31
  | 11 => 30 | 12 => 31 | _ => 0

/-- The validity check `datetime(year, month, day)` performs
(`MINYEAR = 1`, `MAXYEAR = 9999`). -/
def ValidDateB (dt : Date) : Bool :=
  1 ≤ dt.y && dt.y ≤ 9999 && 1 ≤ dt.m && dt.m ≤ 12 &&
  1 ≤ dt.d && dt.d ≤ daysInMonth dt.y dt.m

/-- Decimal digit character. -/
def digitC (k : Nat) : Char :=
  match k with
  | 0 => '0' | 1 => '1' | 2 => '2' | 3 => '3' | 4 => '4'
  | 5 => '5' | 6 => '6' | 7 => '7' | 8 => '8' | _ => '9'

/-- Two-digit zero-padded rendering (`%d`, `%m`, `%y` output). -/
def pad2 (n : Nat) : List Char := [digitC (n / 10), digitC (n % 10)]

/-- Four-digit zero-padded rendering (`%Y` output). -/
def pad4 (n : Nat) : List Char := pad2 (n / 100) ++ pad2 (n % 100)

/-- `parsed.strftime('%Y-%m-%d')`: canonical ISO rendering. -/
def isoRender (dt : Date) : String :=
  ⟨pad4 dt.y ++ '-' :: (pad2 dt.m ++ '-' :: pad2 dt.d)⟩

/-- Numeric value of a digit char. -/
def charVal (c : Char) : Nat := c.toNat - 48

/-- `\d` test. -/
def isDigitC (c : Char) : Bool := '0' ≤ c && c ≤ '9'

/-- Field tokens of the five fixed `strptime` format strings. -/
inductive Tok where
  | day
  | month
  | year4
  | year2
  | lit (c : Char)
deriving DecidableEq, Repr

/-- Alternatives for `%d` = `3[01]|[12]\d|0[1-9]|[1-9]`, in regex order,
each alternative paired with the remaining input. -/
def dayAlts : List Char → List (Nat × List Char)
  | c1 :: c2 :: r =>
    (if c1 = '3' && (c2 = '0' || c2 = '1') then [(30 + charVal c2, r)] else []) ++
    (if (c1 = '1' || c1 = '2') && isDigitC c2 then [(10 * charVal c1 + charVal c2, r)] else []) ++
    (if c1 = '0' && ('1' ≤ c2 && c2 ≤ '9') then [(charVal c2, r)] else []) ++
    (if '1' ≤ c1 && c1 ≤ '9' then [(charVal c1, c2 :: r)] else [])
  | [c1] => if '1' ≤ c1 && c1 ≤ '9' then [(charVal c1, [])] else []
  | [] => []

/-- Alternatives for `%m` = `1[0-2]|0[1-9]|[1-9]`, in regex order. -/
def monthAlts : List Char → List (Nat × List Char)
  | c1 :: c2 :: r =>
    (if c1 = '1' && ('0' ≤ c2 && c2 ≤ '2') then [(10 + charVal c2, r)] else []) ++
    (if c1 = '0' && ('1' ≤ c2 && c2 ≤ '9') then [(charVal c2, r)] else []) ++
    (if '1' ≤ c1 && c1 ≤ '9' then [(charVal c1, c2 :: r)] else [])
  | [c1] => if '1' ≤ c1 && c1 ≤ '9' then [(charVal c1, [])] else []
  | [] => []

/-- Run one format token against the input: `%Y` = `\d\d\d\d`, `%y` = `\d\d`,
literals match one char. -/
def runTok : Tok → List Char → List (Nat × List Char)
  | .day, l => dayAlts l
  | .month, l => monthAlts l
  | .year4, a :: b :: c :: d :: r =>
    if isDigitC a && isDigitC b && isDigitC c && isDigitC d then
      [(1000 * charVal a + 100 * charVal b + 10 * charVal c + charVal d, r)]
    else []
  | .year4, _ => []
  | .year2, a :: b :: r =>
    if isDigitC a && isDigitC b then [(10 * charVal a + charVal b, r)] else []
  | .year2, _ => []
  | .lit c, x :: r => if x = c then [(0, r)] else []
  | .lit _, [] => []

/-- Parsed-field record built up by `strptime`. -/
structure PSt where
  dayF : Option Nat
  mF : Option Nat
  y4F : Option Nat
  y2F : Option Nat
deriving DecidableEq, Repr

/-- Record the value matched by a token. -/
def updSt (t : Tok) (v : Nat) (st : PSt) : PSt :=
  match t with
  | .day => { st with dayF := some v }
  | .month => { st with mF := some v }
  | .year4 => { st with y4F := some v }
  | .year2 => { st with y2F := some v }
  | .lit _ => st

/-- First-success choice over a list (regex alternative backtracking;
also the shape of the `for fmt in date_formats` loop). -/
def firstSome : List α → (α → Option β) → Option β
  | [], _ => none
  | a :: as, f => match f a with
    | some b => some b
    | none => firstSome as f

/-- Match a token sequence against the whole input (strptime requires the
entire string to be consumed), with backtracking across alternatives. -/
def parseToks : List Tok → List Char → PSt → Option PSt
  | [], [], st => some st
  | [], _ :: _, _ => none
  | t :: ts, l, st => firstSome (runTok t l) (fun vr => parseToks ts vr.2 (updSt t vr.1 st))

/-- CPython 2-digit-year pivot: 0-68 ↦ 2000s, 69-99 ↦ 1900s. -/
def pivotY2 (k : Nat) : Nat := if k ≤ 68 then 2000 + k else 1900 + k

/-- Build the `datetime` from matched fields (strptime defaults: year 1900,
month 1, day 1) and validate the calendar date. -/
def stBuild (st : PSt) : Option Date :=
  let y := match st.y4F with
    | some v => v
    | none => match st.y2F with
      | some v => pivotY2 v
      | none => 1900
  let m := st.mF.getD 1
  let d := st.dayF.getD 1
  if ValidDateB ⟨y, m, d⟩ then some ⟨y, m, d⟩ else none

/-- `datetime.strptime(s, fmt)` for one of the five fixed formats, as an
option instead of `ValueError`. -/
def strptimeF (fmt : List Tok) (s : List Char) : Option Date :=
  (parseToks fmt s ⟨none, none, none, none⟩).bind stBuild

/-- `'%d/%m/%Y'` -/
def fmtDMYslash : List Tok := [.day, .lit '/', .month, .lit '/', .year4]
/-- `'%d.%m.%Y'` -/
def fmtDMYdot : List Tok := [.day, .lit '.', .month, .lit '.', .year4]
/-- `'%Y-%m-%d'` -/
def fmtISO : List Tok := [.year4, .lit '-', .month, .lit '-', .day]
/-- `'%d-%m-%Y'` -/
def fmtDMYdash : List Tok := [.day, .lit '-', .month, .lit '-', .year4]
/-- `'%d/%m/%y'` -/
def fmtDMYy2 : List Tok := [.day, .lit '/', .month, .lit '/', .year2]

/-- The `date_formats` list of `parse_date`, in source order. -/
def date_formats : List (List Tok) :=
  [fmtDMYslash, fmtDMYdot, fmtISO, fmtDMYdash, fmtDMYy2]

/-- `TenderScraper.parse_date`: strip, try each format in order, return the
first successful parse rendered as ISO, else `None`. -/
def parse_date (s : String) : Option String :=
  firstSome date_formats (fun fmt => (strptimeF fmt (stripL s.data)).map isoRender)

/-- Render a date in the pattern of one of the five formats (zero-padded
fields, `%y` = year mod 100): the string "constructed from a date in that
pattern". -/
def renderFmt (fmt : List Tok) (dt : Date) : String :=
  ⟨fmt.foldr (fun t acc =>
    (match t with
     | .day => pad2 dt.d
     | .month => pad2 dt.m
     | .year4 => pad4 dt.y
     | .year2 => pad2 (dt.y % 100)
     | .lit c => [c]) ++ acc) []⟩

/-! ## Text classifier (`CATEGORY_MAP` lines 26-38, `categorize` lines 72-83) -/

/-- `CATEGORY_MAP`: category name ↦ synonym keywords, in declaration order;
`'אחר'` is the default category with no synonyms. -/
def CATEGORY_MAP : List (String × List String) :=
  [("דוברות", ["דוברות", "דובר", "spokesman", "הסברה", "דיפלומטיה ציבורית"]),
   ("יחסי ציבור", ["יחסי ציבור", "יח\"צ", "PR", "public relations", "ניהול משברים"]),
   ("תקשורת", ["תקשורת", "ייעוץ תקשורתי", "communications", "אסטרטגיה תקשורתית"]),
   ("פרסום", ["פרסום", "קמפיין", "advertising", "campaign", "קריאייטיב", "creative"]),
   ("שיווק", ["שיווק", "marketing", "קידום", "קופירייטינג", "כתיבה שיווקית"]),
   ("מדיה", ["מדיה", "רשתות חברתיות", "דיגיטל", "social media", "סושיאל"]),
   ("מיתוג", ["מיתוג", "branding", "brand", "זהות מותגית", "לוגו"]),
   ("תוכן", ["תוכן", "content", "עריכה", "וידאו", "הפקה"]),
   ("אירועים", ["אירועים", "events", "כנסים", "השקות"]),
   ("עיצוב", ["עיצוב", "גרפי", "design", "graphic"]),
   ("אחר", [])]

/-- Does some synonym of the entry match (`any(kw.lower() in text_lower ...)`)?
`tl` is the already-lowercased text. -/
def kwAnyMatch (kws : List String) (tl : String) : Bool :=
  kws.any (fun kw => isSubL (lowerS kw).data tl.data)

/-- The `for category, keywords in CATEGORY_MAP.items()` loop of `categorize`,
skipping `'אחר'`, appending matching categories in declaration order. -/
def categorizeGo : List (String × List String) → String → List String
  | [], _ => []
  | (cat, kws) :: rest, tl =>
    if cat = "אחר" then categorizeGo rest tl
    else if kwAnyMatch kws tl then cat :: categorizeGo rest tl
    else categorizeGo rest tl

/-- `TenderScraper.categorize`: matching categories, else `['אחר']`. -/
def categorize (text : String) : List String :=
  let cats := categorizeGo CATEGORY_MAP (lowerS text)
  if cats = [] then ["אחר"] else cats

/-- Modelled from the spec: `matches_keywords` (§4.1) is part of the
relevance-classification stage of the most mature scraper generation, which is
not among the files under `src/` (the script present there is the
comprehensive-mode generation that collects everything).  Per the spec: true
iff the lowercased text contains at least one configured inclusion keyword and
none of the configured exclusion keywords, with the exclusion check
short-circuiting to false first.  The configured keyword lists are passed as
parameters. -/
def matches_keywords (searchKws excludeKws : List String) (text : String) : Bool :=
  let tl := lowerS text
  if excludeKws.any (fun k => isSubL (lowerS k).data tl.data) then false
  else searchKws.any (fun k => isSubL (lowerS k).data tl.data)

/-! ## Tender record (`@dataclass Tender`, lines 41-52) -/

/-- The `Tender` dataclass. -/
structure Tender where
  tenderNumber : String
  title : String
  publisher : String
  deadline : String
  categories : List String
  source : String
  url : String
  description : String := ""
  docType : String := "מכרז"
deriving DecidableEq, Repr

/-- Run-time context: `today` models the date of `datetime.now()` (used by
`strftime('%Y-%m-%d')` deadline fallbacks), `ts` the
`datetime.now().strftime('%Y%m%d%H%M%S')` token used in synthetic tender
numbers, `stamp` the `'%Y-%m-%d %H:%M'` envelope timestamp. -/
structure Ctx where
  today : Date
  ts : String
  stamp : String
deriving Repr

/-! ## Regex extractors of `MRGovScraper` (lines 234-282) and
`MunicipalScraper` (lines 588-606).

Each fixed `re.search` pattern is embedded as a leftmost scan
(`scanFor`) over the char list with an at-position matcher following the
pattern's alternative order. -/

/-- Leftmost `re.search` driver: try the at-position matcher at every start
position, left to right. -/
def scanFor (f : List Char → Option α) : List Char → Option α
  | [] => f []
  | c :: r => match f (c :: r) with
    | some x => some x
    | none => scanFor f r

/-- Match a literal at the current position, returning the rest. -/
def afterLit (lit : List Char) (l : List Char) : Option (List Char) :=
  if prefixOf lit l then some (l.drop lit.length) else none

/-- `[:\s]*` greedy skip. -/
def dropLabelSkip (l : List Char) : List Char :=
  l.dropWhile (fun c => c = ':' || isSpaceC c)

/-- `/p/(\d+)` at-scan (`_extract_tender_number_from_url`, lines 234-239):
leftmost `/p/` followed by at least one digit, greedy capture. -/
def findPnum : List Char → Option (List Char)
  | '/' :: 'p' :: '/' :: rest =>
    (let ds := rest.takeWhile isDigitC
     if ds = [] then findPnum ('p' :: '/' :: rest) else some ds)
  | _ :: rest => findPnum rest
  | [] => none

/-- `MRGovScraper._extract_tender_number_from_url`. -/
def mrExtractNumberFromUrl (url : String) : String :=
  match findPnum url.data with
  | some ds => ⟨ds⟩
  | none => ""

/-- At-position matcher for `מס['\"]?\s*פרסום[:\s]*(\d+)` (line 268).
The optional quote and the greedy whitespace/label skips are deterministic
here because the skipped classes are disjoint from what follows them. -/
def tryNumPub (l : List Char) : Option (List Char) :=
  match afterLit "מס".data l with
  | none => none
  | some rest =>
    let rest1 := match rest with
      | c :: r => if c.toNat = 39 || c = '"' then r else rest
      | [] => rest
    let rest2 := rest1.dropWhile isSpaceC
    match afterLit "פרסום".data rest2 with
    | none => none
    | some rest3 =>
      let ds := (dropLabelSkip rest3).takeWhile isDigitC
      if ds = [] then none else some ds

/-- `[A-Za-z0-9\-\/]` class of the second tender-number pattern. -/
def isTenderNumChar (c : Char) : Bool :=
  ('A' ≤ c && c ≤ 'Z') || ('a' ≤ c && c ≤ 'z') || isDigitC c || c = '-' || c = '/'

/-- At-position matcher for `מכרז\s*(?:מספר|#)?\s*:?\s*([A-Za-z0-9\-\/]+)`
(line 273), with the optional group's alternatives tried in regex order
(`מספר`, `#`, empty). -/
def tryTenderNumPat (l : List Char) : Option (List Char) :=
  match afterLit "מכרז".data l with
  | none => none
  | some rest =>
    let r1 := rest.dropWhile isSpaceC
    firstSome
      ((match afterLit "מספר".data r1 with | some r => [r] | none => []) ++
       (match r1 with
        | '#' :: r => [r]
        | _ => []) ++
       [r1])
      (fun r2 =>
        let r3 := r2.dropWhile isSpaceC
        let r4 := match r3 with
          | ':' :: rr => rr
          | _ => r3
        let r5 := r4.dropWhile isSpaceC
        let ds := r5.takeWhile isTenderNumChar
        if ds = [] then none else some ds)

/-- At-position matcher for `(\d{10,})` (line 278). -/
def tryLongNum (l : List Char) : Option (List Char) :=
  match l with
  | c :: _ =>
    if isDigitC c then
      let ds := l.takeWhile isDigitC
      if 10 ≤ ds.length then some ds else none
    else none
  | [] => none

/-- `MRGovScraper._extract_tender_number` (lines 263-282): three patterns in
order, else the synthetic `MR-<timestamp>` fallback. -/
def mrExtractTenderNumber (text : String) (ts : String) : String :=
  match scanFor tryNumPub text.data with
  | some ds => ⟨ds⟩
  | none => match scanFor tryTenderNumPat text.data with
    | some ds => ⟨ds⟩
    | none => match scanFor tryLongNum text.data with
      | some ds => ⟨ds⟩
      | none => "MR-" ++ ts

/-- Exactly `n` digits at the current position. -/
def takeDigitsN : Nat → List Char → Option (List Char × List Char)
  | 0, l => some ([], l)
  | _ + 1, [] => none
  | n + 1, c :: r =>
    if isDigitC c then
      match takeDigitsN n r with
      | some (ds, rest) => some (c :: ds, rest)
      | none => none
    else none

/-- Greedy alternatives for `\d{1,2}`: two digits first, then one. -/
def num12Alts (l : List Char) : List (List Char × List Char) :=
  (match takeDigitsN 2 l with | some p => [p] | none => []) ++
  (match takeDigitsN 1 l with | some p => [p] | none => [])

/-- `[./]` separator class of the date patterns. -/
def isDateSep (c : Char) : Bool := c = '.' || c = '/'

/-- At-position matcher for `\d{1,2}[./]\d{1,2}[./]\d{ylens}` where `ylens`
lists the year-digit counts in greedy order (`[4,3,2]` for `{2,4}`, `[4]` for
`{4}`), returning the full captured text.  Backtracks across the greedy
number alternatives as the regex engine does. -/
def tryDatePat (ylens : List Nat) (l : List Char) : Option (List Char) :=
  firstSome (num12Alts l) (fun p1 =>
    match p1.2 with
    | s1 :: r2 =>
      if isDateSep s1 then
        firstSome (num12Alts r2) (fun p2 =>
          match p2.2 with
          | s2 :: r4 =>
            if isDateSep s2 then
              firstSome ylens (fun n =>
                match takeDigitsN n r4 with
                | some (dy, _) => some (p1.1 ++ s1 :: p2.1 ++ s2 :: dy)
                | none => none)
            else none
          | [] => none)
      else none
    | [] => none)

/-- Leftmost search for a date pattern. -/
def searchDatePat (ylens : List Nat) : List Char → Option (List Char) :=
  scanFor (tryDatePat ylens)

/-- At-position matcher for `מועד אחרון להגשה[:\s]*(date)` (line 244). -/
def tryDeadlineLabel (l : List Char) : Option (List Char) :=
  match afterLit "מועד אחרון להגשה".data l with
  | none => none
  | some rest => tryDatePat [4, 3, 2] (dropLabelSkip rest)

/-- `MRGovScraper._extract_deadline_from_text` (lines 241-253): labelled date
first (year `{2,4}`), then any date with a 4-digit year, each parsed via
`parse_date`; `None` when no pattern occurs. -/
def mrExtractDeadline (text : String) : Option String :=
  match scanFor tryDeadlineLabel text.data with
  | some cap => parse_date ⟨cap⟩
  | none => match searchDatePat [4] text.data with
    | some cap => parse_date ⟨cap⟩
    | none => none

/-- Lazy capture of `([^\n]+?)(?:\n|מס)`: after at least one captured
non-newline char, stop at the earliest `\n` or `מס`. -/
def pubCap (racc : List Char) : List Char → Option (List Char)
  | [] => none
  | c :: r =>
    if !racc.isEmpty && (c = '\n' || (c = 'מ' && prefixOf ['ס'] r)) then some racc.reverse
    else if c = '\n' then none
    else pubCap (c :: racc) r

/-- At-position matcher for `שם המפרסם[:\s]*([^\n]+?)(?:\n|מס)` (line 258);
the greedy `[:\s]*` skip is taken maximally (no backtracking into the
capture, which only differs on degenerate all-whitespace captures). -/
def tryPubLabel (l : List Char) : Option (List Char) :=
  match afterLit "שם המפרסם".data l with
  | none => none
  | some rest => pubCap [] (dropLabelSkip rest)

/-- `MRGovScraper._extract_publisher_from_text` (lines 255-261). -/
def mrExtractPublisher (text : String) : String :=
  match scanFor tryPubLabel text.data with
  | some cap => stripS ⟨cap⟩
  | none => "משרד ממשלתי"

/-- At-position matcher for the municipal number pattern of line 592:
one or more digits, optionally one separator char (slash or hyphen, the
class written slash-first in the source), then any further digits. -/
def tryMunNum (l : List Char) : Option (List Char) :=
  match l with
  | c :: _ =>
    if isDigitC c then
      let ds := l.takeWhile isDigitC
      match l.drop ds.length with
      | s :: r2 => if s = '/' || s = '-' then some (ds ++ s :: r2.takeWhile isDigitC) else some ds
      | [] => some ds
    else none
  | [] => none

/-- `MunicipalScraper._extract_number` (lines 588-596): prefixed captured
number, else prefixed timestamp.  `element` is the stringified found node
(`str(element)`), `None` when the find chain produced nothing; Python
truthiness makes an empty string behave like `None`. -/
def munExtractNumber (el : Option String) (pfx ts : String) : String :=
  if pyTruthy el then
    match scanFor tryMunNum (el.getD "").data with
    | some cap => pfx ++ "-" ++ ⟨cap⟩
    | none => pfx ++ "-" ++ ts
  else pfx ++ "-" ++ ts

/-- `MunicipalScraper._extract_date` (lines 598-606). -/
def munExtractDate (ctx : Ctx) (el : Option String) : String :=
  if pyTruthy el then
    match searchDatePat [4, 3, 2] (el.getD "").data with
    | some cap => pyOrStr (parse_date ⟨cap⟩) (isoRender ctx.today)
    | none => isoRender ctx.today
  else isoRender ctx.today

/-! ## Source adapters.

The transport and markup-query collaborators are external (spec §1, §6), so
each parse stage takes the located candidate fragments as input, one
structure per fragment carrying exactly the element results the Python code
reads off it. -/

/-- An `<a>` element of a portal result fragment: its `href` and its
`get_text(strip=True)`-able text. -/
structure MRLink where
  href : String
  text : String
deriving DecidableEq, Repr

/-- A portal result fragment (`div.result-container` etc.): its
`get_text()` and its links in document order. -/
structure MRItem where
  fullText : String
  links : List MRLink
deriving DecidableEq, Repr

def mrGovBase : String := "https://mr.gov.il"

/-- The exemption skip of `MRGovScraper._parse_results` (lines 181-190):
skip iff the full text contains `'פטור'` and (a status-exemption phrase, or
an exemption-notice phrase, or no `'מכרז'` marker). -/
def mrSkipExemption (ft : String) : Bool :=
  hasSub ft "פטור" &&
  (hasSub ft "סטטוס: פטור" || hasSub ft "סטטוס:פטור" ||
   hasSub ft "הודעת פטור" || hasSub ft "הודעות פטור" ||
   !(hasSub ft "מכרז"))

/-- `item.find('a', href=lambda h: h and '/p/' in h)`: first link with a
truthy href containing `/p/`. -/
def findTenderLink (links : List MRLink) : Option MRLink :=
  links.find? (fun l => !(l.href = "") && hasSub l.href "/p/")

/-- Relative-URL resolution of lines 203-204. -/
def mrResolveUrl (href : String) : String :=
  if !(href = "") && !(startsWithS href "http") then mrGovBase ++ href else href

/-- One iteration of the fragment loop of `MRGovScraper._parse_results`
(lines 173-230); `none` models a `continue`. -/
def mrParseItem (ctx : Ctx) (it : MRItem) : Option Tender :=
  let ft := it.fullText
  if mrSkipExemption ft then none
  else match findTenderLink it.links with
    | none => none
    | some link =>
      let title := stripS link.text
      if title = "" then none
      else
        let url := mrResolveUrl link.href
        let tenderNum := strOr (mrExtractNumberFromUrl url) (mrExtractTenderNumber ft ctx.ts)
        let deadline := mrExtractDeadline ft
        let publisher := mrExtractPublisher ft
        if !(tenderNum = "") && !(title = "") then
          some { tenderNumber := tenderNum, title := title, publisher := publisher,
                 deadline := pyOrStr deadline (isoRender ctx.today),
                 categories := categorize title,
                 source := "mr.gov.il", url := url, docType := "מכרז" }
        else none

/-- `MRGovScraper._parse_results` over the located fragments. -/
def mrParseResults (ctx : Ctx) (items : List MRItem) : List Tender :=
  items.filterMap (mrParseItem ctx)

/-- A gov-API response item, each Python `item.get(key, default)` access
modelled by an optional string field (`none` = key absent; numeric ids are
represented by their `str()` image, which the source applies anyway). -/
structure ApiItem where
  Title : Option String
  title : Option String
  TenderId : Option String
  id : Option String
  OfficeName : Option String
  office : Option String
  EndDate : Option String
  Url : Option String
deriving DecidableEq, Repr

def tgBase : String := "https://www.gov.il"

/-- One iteration of `TenderGovScraper._parse_api_results` (lines 324-351). -/
def tgParseApiItem (ctx : Ctx) (it : ApiItem) : Option Tender :=
  let title := strOr (it.Title.getD "") (it.title.getD "")
  if title = "" then none
  else
    some { tenderNumber := strOr (it.TenderId.getD "") (it.id.getD ""),
           title := title,
           publisher := strOr (it.OfficeName.getD "") (it.office.getD "משרד ממשלתי"),
           deadline := pyOrStr (parse_date (it.EndDate.getD "")) (isoRender ctx.today),
           categories := categorize title,
           source := "tender.gov.il",
           url := strOr (it.Url.getD "")
             (tgBase ++ "/he/departments/tenders/" ++ it.TenderId.getD "") }

/-- `TenderGovScraper._parse_api_results` over the response items. -/
def tgParseApiResults (ctx : Ctx) (items : List ApiItem) : List Tender :=
  items.filterMap (tgParseApiItem ctx)

/-- One iteration of the HTML-fallback loop `TenderGovScraper._scrape_html`
(lines 365-378); the fragment is modelled by its resolved title element
(`item.find('h2') or item.find('h3')`), and a present element always yields
a record (the source has no emptiness check on this path). -/
def tgParseHtmlItem (ctx : Ctx) (titleEl : Option String) : Option Tender :=
  match titleEl with
  | none => none
  | some t =>
    some { tenderNumber := "GOV-" ++ ctx.ts,
           title := stripS t,
           publisher := "משרד ממשלתי",
           deadline := isoRender ctx.today,
           categories := categorize (stripS t),
           source := "tender.gov.il",
           url := tgBase ++ "/he/departments/tenders" }

/-- `TenderGovScraper._scrape_html` over the located fragments. -/
def tgParseHtml (ctx : Ctx) (items : List (Option String)) : List Tender :=
  items.filterMap (tgParseHtmlItem ctx)

/-- One registry entry of `MUNICIPALITIES` / `COMPANIES`
(name, url, identifier code used as number namespace). -/
structure SrcEntry where
  name : String
  url : String
  pfx : String
deriving DecidableEq, Repr

/-- The `MUNICIPALITIES` registry (lines 392-495), values in declaration
order. -/
def MUNICIPALITIES : List SrcEntry :=
  [⟨"עיריית תל אביב-יפו", "https://www.tel-aviv.gov.il/Tenders/Pages/TendersList.aspx", "TLV"⟩,
   ⟨"עיריית ירושלים", "https://www.jerusalem.muni.il/he/residents/tenders/", "JLM"⟩,
   ⟨"עיריית חיפה", "https://www.haifa.muni.il/tenders", "HFA"⟩,
   ⟨"עיריית באר שבע", "https://www.beer-sheva.muni.il/Residents/tenders/Pages/default.aspx", "BSH"⟩,
   ⟨"עיריית ראשון לציון", "https://www.rishonlezion.muni.il/Residents/Tenders/Pages/default.aspx", "RLZ"⟩,
   ⟨"עיריית פתח תקווה", "https://www.petah-tikva.muni.il/Residents/Tenders/Pages/default.aspx", "PTK"⟩,
   ⟨"עיריית נתניה", "https://www.netanya.muni.il/Tenders/Pages/default.aspx", "NTN"⟩,
   ⟨"עיריית אשדוד", "https://www.ashdod.muni.il/Tenders/Pages/default.aspx", "ASD"⟩,
   ⟨"עיריית חולון", "https://www.holon.muni.il/Residents/Tenders/Pages/default.aspx", "HLN"⟩,
   ⟨"עיריית בני ברק", "https://www.bnei-brak.muni.il/tenders", "BBK"⟩,
   ⟨"עיריית רמת גן", "https://www.ramat-gan.muni.il/Residents/Tenders/Pages/default.aspx", "RMG"⟩,
   ⟨"עיריית בת ים", "https://www.bat-yam.muni.il/tenders", "BTY"⟩,
   ⟨"עיריית אשקלון", "https://www.ashkelon.muni.il/tenders", "ASK"⟩,
   ⟨"עיריית רחובות", "https://www.rehovot.muni.il/Residents/Tenders/Pages/default.aspx", "RHV"⟩,
   ⟨"עיריית הרצליה", "https://www.herzliya.muni.il/Tenders/Pages/default.aspx", "HRZ"⟩,
   ⟨"עיריית כפר סבא", "https://www.kfar-saba.muni.il/tenders", "KFS"⟩,
   ⟨"עיריית רעננה", "https://www.raanana.muni.il/tenders", "RNN"⟩,
   ⟨"עיריית מודיעין-מכבים-רעות", "https://www.modiin.muni.il/tenders", "MDN"⟩,
   ⟨"עיריית נצרת", "https://www.nazareth.muni.il/tenders", "NZR"⟩,
   ⟨"עיריית אילת", "https://www.eilat.muni.il/tenders", "ELT"⟩]

/-- The `COMPANIES` registry (lines 615-661). -/
def COMPANIES : List SrcEntry :=
  [⟨"חברת החשמל", "https://www.iec.co.il/tenders", "IEC"⟩,
   ⟨"מקורות", "https://www.mekorot.co.il/tenders", "MKR"⟩,
   ⟨"רכבת ישראל", "https://www.rail.co.il/tenders", "ISR"⟩,
   ⟨"דואר ישראל", "https://www.israelpost.co.il/tenders", "POST"⟩,
   ⟨"רשות שדות התעופה", "https://www.iaa.gov.il/tenders", "IAA"⟩,
   ⟨"חברת נמלי ישראל", "https://www.israports.co.il/tenders", "PORT"⟩,
   ⟨"בזק", "https://www.bezeq.co.il/tenders", "BZK"⟩,
   ⟨"אגד", "https://www.egged.co.il/tenders", "EGD"⟩,
   ⟨"דן", "https://www.dan.co.il/tenders", "DAN"⟩]

/-- A municipal page fragment: the resolved title element text, the
stringified number node, the stringified date text node, and the first
`a[href]` value, each `none` when the corresponding find chain matched
nothing. -/
structure MunItem where
  titleEl : Option String
  numEl : Option String
  dateEl : Option String
  linkHref : Option String
deriving DecidableEq, Repr

/-- `city_info['url'].rsplit('/', 1)[0]`. -/
def rsplitBase (s : String) : String :=
  if s.data.contains '/' then
    ⟨((s.data.reverse.dropWhile (fun c => !(c = '/'))).drop 1).reverse⟩
  else s

/-- One iteration of the fragment loop of
`MunicipalScraper._parse_municipal_page` (lines 542-584). -/
def munParseItem (ctx : Ctx) (city : SrcEntry) (it : MunItem) : Option Tender :=
  match it.titleEl with
  | none => none
  | some tEl =>
    let title := stripS tEl
    if title = "" then none
    else
      let num := munExtractNumber it.numEl city.pfx ctx.ts
      let deadline := if pyTruthy it.dateEl then munExtractDate ctx it.dateEl
                      else isoRender ctx.today
      let url0 := match it.linkHref with
        | some h => h
        | none => city.url
      let url := if !(url0 = "") && !(startsWithS url0 "http") then
                   rsplitBase city.url ++ "/" ++ url0
                 else url0
      some { tenderNumber := num, title := title, publisher := city.name,
             deadline := deadline, categories := categorize title,
             source := "municipal", url := url }

/-- `MunicipalScraper._parse_municipal_page` over the located fragments. -/
def munParsePage (ctx : Ctx) (city : SrcEntry) (items : List MunItem) : List Tender :=
  items.filterMap (munParseItem ctx city)

/-- One iteration of the fragment loop of
`GovernmentCompaniesScraper._scrape_company` (lines 691-705); the fragment is
modelled by its resolved title element. -/
def coParseItem (ctx : Ctx) (co : SrcEntry) (titleEl : Option String) : Option Tender :=
  match titleEl with
  | none => none
  | some t =>
    let title := stripS t
    if title = "" then none
    else
      some { tenderNumber := co.pfx ++ "-" ++ ctx.ts, title := title,
             publisher := co.name, deadline := isoRender ctx.today,
             categories := categorize title, source := "government-company",
             url := co.url }

/-- `GovernmentCompaniesScraper._scrape_company` over the located fragments. -/
def coParseCompany (ctx : Ctx) (co : SrcEntry) (items : List (Option String)) : List Tender :=
  items.filterMap (coParseItem ctx co)

/-! ## Aggregator (`main`, lines 715-780) -/

/-- The `seen`-set deduplication loop (lines 152-157 and 739-744):
first-seen-wins by `tenderNumber`, insertion order preserved.  The Python
`set` is modelled by the list of numbers added so far. -/
def dedupGo (seen : List String) : List Tender → List Tender
  | [] => []
  | t :: ts =>
    if t.tenderNumber ∈ seen then dedupGo seen ts
    else t :: dedupGo (t.tenderNumber :: seen) ts

/-- Deduplicate a tender list by `tenderNumber`, first occurrence wins. -/
def dedupTenders (l : List Tender) : List Tender := dedupGo [] l

/-- Python string `<` on the sort key (`x['deadline']`). -/
def tenderLtB (a b : Tender) : Bool := lexLt a.deadline.data b.deadline.data

/-- Stable insertion: a record goes before the first strictly-greater key. -/
def insertAsc (t : Tender) : List Tender → List Tender
  | [] => [t]
  | u :: us => if tenderLtB t u then t :: u :: us else u :: insertAsc t us

/-- `tenders_data.sort(key=lambda x: x['deadline'])` (line 750): stable
ascending sort by the deadline string. -/
def sortTenders : List Tender → List Tender
  | [] => []
  | t :: ts => insertAsc t (sortTenders ts)

/-- The adapter loop of `main` (lines 730-736): each adapter's outcome is an
`Except` (an `error` models `scrape` raising, caught and logged by the
aggregator); successful results are concatenated in invocation order. -/
def collectOk : List (Except String (List Tender)) → List Tender
  | [] => []
  | .ok l :: rest => l ++ collectOk rest
  | .error _ :: rest => collectOk rest

/-- The output envelope (lines 753-769). -/
structure SnapshotOut where
  lastUpdate : String
  tenders : List Tender
  totalCount : Nat
  srcMrGov : Nat
  srcTenderGov : Nat
  srcMunicipal : Nat
  srcGovCompany : Nat
  note : String
deriving DecidableEq, Repr

/-- Build the envelope from the deduplicated, sorted records (lines 753-769). -/
def buildOutput (ctx : Ctx) (tendersData : List Tender) : SnapshotOut :=
  { lastUpdate := ctx.stamp,
    tenders := tendersData,
    totalCount := tendersData.length,
    srcMrGov := (tendersData.filter (fun t => t.source = "mr.gov.il")).length,
    srcTenderGov := (tendersData.filter (fun t => t.source = "tender.gov.il")).length,
    srcMunicipal := (tendersData.filter (fun t => t.source = "municipal")).length,
    srcGovCompany := (tendersData.filter (fun t => t.source = "government-company")).length,
    note := if tendersData = [] then "לא נמצאו מכרזים. המערכת סורקת אוטומטית כל שבוע."
            else "נמצאו " ++ toString tendersData.length ++
                 " מכרזים ממגוון מקורות. השתמש בפילטרים באתר לחיפוש ממוקד." }

/-- `main` (lines 715-780) after the adapter invocations: concatenate,
deduplicate, sort ascending by deadline, build the envelope, return the
record count. -/
def mainRun (ctx : Ctx) (outs : List (Except String (List Tender))) : SnapshotOut × Nat :=
  let td := sortTenders (dedupTenders (collectOk outs))
  (buildOutput ctx td, td.length)

/-- Stable descending sort, as CPython's `reverse=True` performs it
(reverse, stable ascending sort, reverse). -/
def sortTendersDesc (l : List Tender) : List Tender :=
  (sortTenders l.reverse).reverse

/-- Modelled from the spec: the entry-point contract
`run_pipeline(historical: bool = false) -> record_count` (§6) belongs to the
most mature scraper generation, which is not among the files under `src/`
(the script there exposes only `main()`); per the spec, `historical=true`
reverses the sort order, and otherwise the pipeline is the `main` of the
source.  Only the sort-order and record-count aspects are modelled (the
wider portal pagination and the alternative note text concern the external
collaborators and unspecified message text). -/
def run_pipeline (historical : Bool) (ctx : Ctx)
    (outs : List (Except String (List Tender))) : SnapshotOut × Nat :=
  let td0 := dedupTenders (collectOk outs)
  let td := if historical then sortTendersDesc td0 else sortTenders td0
  (buildOutput ctx td, td.length)

/-! ## Lemmas about deduplication -/

theorem mem_of_mem_dedupGo {seen : List String} {l : List Tender} {t : Tender}
    (h : t ∈ dedupGo seen l) : t ∈ l := by
  induction l generalizing seen with
  | nil => simp [dedupGo] at h
  | cons a as ih =>
    by_cases ha : a.tenderNumber ∈ seen
    · simp only [dedupGo, if_pos ha] at h
      exact List.mem_cons_of_mem _ (ih h)
    · simp only [dedupGo, if_neg ha, List.mem_cons] at h
      rcases h with rfl | h
      · exact List.mem_cons_self _ _
      · exact List.mem_cons_of_mem _ (ih h)

theorem not_mem_seen_of_mem_dedupGo {seen : List String} {l : List Tender} {t : Tender}
    (h : t ∈ dedupGo seen l) : t.tenderNumber ∉ seen := by
  induction l generalizing seen with
  | nil => simp [dedupGo] at h
  | cons a as ih =>
    by_cases ha : a.tenderNumber ∈ seen
    · simp only [dedupGo, if_pos ha] at h
      exact ih h
    · simp only [dedupGo, if_neg ha, List.mem_cons] at h
      rcases h with rfl | h
      · exact ha
      · intro hc
        exact ih h (List.mem_cons_of_mem _ hc)

theorem nodup_numbers_dedupGo (seen : List String) (l : List Tender) :
    ((dedupGo seen l).map Tender.tenderNumber).Nodup := by
  induction l generalizing seen with
  | nil => simp [dedupGo]
  | cons a as ih =>
    by_cases ha : a.tenderNumber ∈ seen
    · simp only [dedupGo, if_pos ha]
      exact ih seen
    · simp only [dedupGo, if_neg ha, List.map_cons]
      refine List.nodup_cons.mpr ⟨?_, ih _⟩
      intro hmem
      obtain ⟨t, ht, hnum⟩ := List.mem_map.mp hmem
      exact not_mem_seen_of_mem_dedupGo ht (hnum ▸ List.mem_cons_self _ _)

theorem dedupGo_eq_self {seen : List String} {l : List Tender}
    (hseen : ∀ t ∈ l, t.tenderNumber ∉ seen)
    (hnd : (l.map Tender.tenderNumber).Nodup) : dedupGo seen l = l := by
  induction l generalizing seen with
  | nil => rfl
  | cons a as ih =>
    have ha : a.tenderNumber ∉ seen := hseen a (List.mem_cons_self _ _)
    simp only [dedupGo, if_neg ha]
    congr 1
    simp only [List.map_cons, List.nodup_cons] at hnd
    refine ih ?_ hnd.2
    intro t ht hc
    rcases List.mem_cons.mp hc with hc1 | hc2
    · exact hnd.1 (hc1 ▸ List.mem_map_of_mem Tender.tenderNumber ht)
    · exact hseen t (List.mem_cons_of_mem _ ht) hc2

theorem countP_dedupGo_of_mem_seen {seen : List String} {l : List Tender} {n : String}
    (hn : n ∈ seen) :
    (dedupGo seen l).countP (fun t => t.tenderNumber == n) = 0 := by
  refine List.countP_eq_zero.mpr ?_
  intro t ht
  simp only [beq_iff_eq]
  intro hc
  exact not_mem_seen_of_mem_dedupGo ht (hc ▸ hn)

theorem countP_dedupGo_eq_one {seen : List String} {l : List Tender} {n : String}
    (hn : n ∉ seen) (hmem : n ∈ l.map Tender.tenderNumber) :
    (dedupGo seen l).countP (fun t => t.tenderNumber == n) = 1 := by
  induction l generalizing seen with
  | nil => simp at hmem
  | cons a as ih =>
    simp only [List.map_cons, List.mem_cons] at hmem
    by_cases ha : a.tenderNumber ∈ seen
    · simp only [dedupGo, if_pos ha]
      rcases hmem with rfl | hmem
      · exact absurd ha hn
      · exact ih hn hmem
    · simp only [dedupGo, if_neg ha]
      by_cases hpa : a.tenderNumber = n
      · rw [List.countP_cons_of_pos _ _ (by simpa using hpa)]
        rw [countP_dedupGo_of_mem_seen (by rw [hpa]; exact List.mem_cons_self _ _)]
      · rw [List.countP_cons_of_neg _ _ (by simpa using hpa)]
        rcases hmem with h | hmem
        · exact absurd h.symm hpa
        · refine ih ?_ hmem
          intro hc
          rcases List.mem_cons.mp hc with h | h
          · exact hpa h.symm
          · exact hn h

theorem find?_dedupGo {seen : List String} {l : List Tender} {n : String}
    (hn : n ∉ seen) :
    (dedupGo seen l).find? (fun t => t.tenderNumber == n) =
      l.find? (fun t => t.tenderNumber == n) := by
  induction l generalizing seen with
  | nil => rfl
  | cons a as ih =>
    by_cases ha : a.tenderNumber ∈ seen
    · have hne : (a.tenderNumber == n) = false := by
        simp only [beq_eq_false_iff_ne, ne_eq]
        intro hc
        exact hn (hc ▸ ha)
      simp only [dedupGo, if_pos ha, List.find?, hne]
      exact ih hn
    · simp only [dedupGo, if_neg ha]
      rcases hval : (a.tenderNumber == n) with _ | _
      · simp only [List.find?, hval]
        refine ih ?_
        intro hc
        rcases List.mem_cons.mp hc with h | h
        · simp only [beq_eq_false_iff_ne, ne_eq] at hval
          exact hval h.symm
        · exact hn h
      · simp only [List.find?, hval]

theorem find?_append_left {p : Tender → Bool} {A : List Tender} (B : List Tender)
    (h : (A.find? p).isSome) : (A ++ B).find? p = A.find? p := by
  induction A with
  | nil => simp at h
  | cons a as ih =>
    rcases hpa : p a with _ | _
    · simp only [List.cons_append, List.find?, hpa]
      simp only [List.find?, hpa] at h
      exact ih h
    · simp only [List.cons_append, List.find?, hpa]

/-- Tracking of the `seen` set across a prefix of the dedup loop. -/
def seenAfter (seen : List String) : List Tender → List String
  | [] => seen
  | t :: ts =>
    seenAfter (if t.tenderNumber ∈ seen then seen else t.tenderNumber :: seen) ts

theorem mem_seenAfter {x : String} :
    ∀ (A : List Tender) (seen : List String),
      (x ∈ seenAfter seen A ↔ x ∈ seen ∨ x ∈ A.map Tender.tenderNumber) := by
  intro A
  induction A with
  | nil => intro seen; simp [seenAfter]
  | cons a as ih =>
    intro seen
    by_cases h : a.tenderNumber ∈ seen
    · rw [seenAfter, if_pos h, ih]
      simp only [List.map_cons, List.mem_cons]
      constructor
      · rintro (hx | hx)
        · exact Or.inl hx
        · exact Or.inr (Or.inr hx)
      · rintro (hx | rfl | hx)
        · exact Or.inl hx
        · exact Or.inl h
        · exact Or.inr hx
    · rw [seenAfter, if_neg h, ih]
      simp only [List.mem_cons, List.map_cons]
      tauto

theorem dedupGo_append (A B : List Tender) :
    ∀ seen, dedupGo seen (A ++ B) = dedupGo seen A ++ dedupGo (seenAfter seen A) B := by
  induction A with
  | nil => intro seen; simp [dedupGo, seenAfter]
  | cons a as ih =>
    intro seen
    by_cases h : a.tenderNumber ∈ seen
    · simp only [List.cons_append, dedupGo, if_pos h, seenAfter]
      exact ih _
    · simp only [List.cons_append, dedupGo, if_neg h, seenAfter, List.cons_append]
      rw [List.append_eq, ih _]

theorem dedupGo_seen_congr :
    ∀ (B : List Tender) (s1 s2 : List String),
      (∀ t ∈ B, (t.tenderNumber ∈ s1 ↔ t.tenderNumber ∈ s2)) →
      dedupGo s1 B = dedupGo s2 B := by
  intro B
  induction B with
  | nil => intros; rfl
  | cons b bs ih =>
    intro s1 s2 hiff
    have hb := hiff b (List.mem_cons_self _ _)
    by_cases h1 : b.tenderNumber ∈ s1
    · have h2 : b.tenderNumber ∈ s2 := hb.mp h1
      simp only [dedupGo, if_pos h1, if_pos h2]
      exact ih s1 s2 (fun t ht => hiff t (List.mem_cons_of_mem _ ht))
    · have h2 : b.tenderNumber ∉ s2 := fun hc => h1 (hb.mpr hc)
      simp only [dedupGo, if_neg h1, if_neg h2]
      congr 1
      refine ih _ _ ?_
      intro t ht
      simp only [List.mem_cons]
      rw [hiff t (List.mem_cons_of_mem _ ht)]

theorem dedup_append_disjoint (A B : List Tender)
    (hd : ∀ b ∈ B, b.tenderNumber ∉ A.map Tender.tenderNumber) :
    dedupTenders (A ++ B) = dedupTenders A ++ dedupTenders B := by
  rw [dedupTenders, dedupGo_append]
  congr 1
  apply dedupGo_seen_congr
  intro t ht
  simp [mem_seenAfter, hd t ht]

theorem length_insertAsc (t : Tender) (l : List Tender) :
    (insertAsc t l).length = l.length + 1 := by
  induction l with
  | nil => rfl
  | cons u us ih =>
    by_cases h : tenderLtB t u
    · simp [insertAsc, h]
    · simp [insertAsc, h, ih]

theorem length_sortTenders (l : List Tender) :
    (sortTenders l).length = l.length := by
  induction l with
  | nil => rfl
  | cons t ts ih => simp [sortTenders, length_insertAsc, ih]

theorem collectOk_append (xs ys : List (Except String (List Tender))) :
    collectOk (xs ++ ys) = collectOk xs ++ collectOk ys := by
  induction xs with
  | nil => rfl
  | cons x rest ih =>
    cases x with
    | ok l => simp [collectOk, ih]
    | error e => simp [collectOk, ih]

/-- C9: the Aggregator's first-seen-wins deduplication by `tenderNumber`
is idempotent: a second pass changes neither the records nor their order. -/
theorem dedup_idempotent (l : List Tender) :
    dedupTenders (dedupTenders l) = dedupTenders l := by
  refine dedupGo_eq_self ?_ (nodup_numbers_dedupGo [] l)
  intro t _
  simp

/-- C5: when two adapter result lists each contain a record with the same
`tenderNumber`, the Aggregator's merge+dedup output contains exactly one
record with that number, namely the first such record of the first list in
invocation order. -/
theorem dedup_first_seen_wins (A B : List Tender) (n : String)
    (hA : ∃ a ∈ A, a.tenderNumber = n) (hB : ∃ b ∈ B, b.tenderNumber = n) :
    (dedupTenders (A ++ B)).countP (fun t => t.tenderNumber == n) = 1 ∧
    (dedupTenders (A ++ B)).find? (fun t => t.tenderNumber == n) =
      A.find? (fun t => t.tenderNumber == n) ∧
    ∃ a ∈ A, a.tenderNumber = n ∧
      (dedupTenders (A ++ B)).find? (fun t => t.tenderNumber == n) = some a := by
  obtain ⟨a0, ha0, hn0⟩ := hA
  obtain ⟨b0, hb0, hnb0⟩ := hB
  have hsome : (A.find? (fun t => t.tenderNumber == n)).isSome := by
    apply List.find?_isSome.mpr
    exact ⟨a0, ha0, by simp [hn0]⟩
  have hfind : (dedupTenders (A ++ B)).find? (fun t => t.tenderNumber == n) =
      A.find? (fun t => t.tenderNumber == n) := by
    rw [dedupTenders, find?_dedupGo (by simp), find?_append_left _ hsome]
  refine ⟨?_, hfind, ?_⟩
  · refine countP_dedupGo_eq_one (by simp) ?_
    simp only [List.map_append, List.mem_append]
    exact Or.inl (List.mem_map.mpr ⟨a0, ha0, hn0⟩)
  · obtain ⟨a, hfa⟩ := Option.isSome_iff_exists.mp hsome
    refine ⟨a, List.mem_of_find?_eq_some hfa, ?_, by rw [hfind, hfa]⟩
    have := List.find?_some hfa
    simpa using this

/-- A fixed run context for concrete evaluations. -/
def ctx0 : Ctx := ⟨⟨2026, 10, 12⟩, "20261012120000", "2026-10-12 12:00"⟩

/-- A portal record with number `"100"`. -/
def sampleA : Tender :=
  { tenderNumber := "100", title := "מכרז דוברות", publisher := "משרד א",
    deadline := "2026-01-01", categories := ["דוברות"], source := "mr.gov.il",
    url := "https://mr.gov.il/p/100" }

/-- A municipal record with the same number `"100"`. -/
def sampleB : Tender :=
  { tenderNumber := "100", title := "קמפיין פרסום", publisher := "עיריית חיפה",
    deadline := "2026-02-02", categories := ["פרסום"], source := "municipal",
    url := "https://www.haifa.muni.il/tenders" }

/-- A municipal record with a distinct number. -/
def sampleC : Tender :=
  { tenderNumber := "HFA-7", title := "ייעוץ תקשורתי", publisher := "עיריית חיפה",
    deadline := "2026-03-03", categories := ["תקשורת"], source := "municipal",
    url := "https://www.haifa.muni.il/tenders" }

/-- Witness for C5 at concrete adapter outputs sharing number `"100"`. -/
theorem dedup_first_seen_wins_witness :
    (dedupTenders ([sampleA] ++ [sampleB])).countP (fun t => t.tenderNumber == "100") = 1 ∧
    (dedupTenders ([sampleA] ++ [sampleB])).find? (fun t => t.tenderNumber == "100") =
      [sampleA].find? (fun t => t.tenderNumber == "100") ∧
    ∃ a ∈ [sampleA], a.tenderNumber = "100" ∧
      (dedupTenders ([sampleA] ++ [sampleB])).find? (fun t => t.tenderNumber == "100") = some a :=
  dedup_first_seen_wins [sampleA] [sampleB] "100"
    ⟨sampleA, by decide, by decide⟩ ⟨sampleB, by decide, by decide⟩

/-- C6 (amended): a raising adapter (or one returning `[]`) contributes
nothing: the envelope and the returned count are those of the remaining
adapters; the envelope timestamp stays the run timestamp; and the final
count equals the SUM of the remaining adapters' deduplicated counts exactly
in the cross-adapter-disjoint case. -/
theorem adapter_partial_failure (ctx : Ctx)
    (outs1 outs2 : List (Except String (List Tender))) (e : String) :
    mainRun ctx (outs1 ++ .error e :: outs2) = mainRun ctx (outs1 ++ outs2) ∧
    mainRun ctx (outs1 ++ .ok [] :: outs2) = mainRun ctx (outs1 ++ outs2) ∧
    (mainRun ctx (outs1 ++ .error e :: outs2)).1.lastUpdate = ctx.stamp ∧
    (∀ A B : List Tender,
      (∀ b ∈ B, b.tenderNumber ∉ A.map Tender.tenderNumber) →
      (mainRun ctx [.ok A, .error e, .ok B]).2 =
        (dedupTenders A).length + (dedupTenders B).length) := by
  have hcoll : collectOk (outs1 ++ .error e :: outs2) = collectOk (outs1 ++ outs2) := by
    rw [collectOk_append, collectOk_append]
    rfl
  have hcoll2 : collectOk (outs1 ++ .ok [] :: outs2) = collectOk (outs1 ++ outs2) := by
    rw [collectOk_append, collectOk_append]
    rfl
  refine ⟨by rw [mainRun, hcoll]; rfl, by rw [mainRun, hcoll2]; rfl, by rw [mainRun, hcoll]; rfl, ?_⟩
  intro A B hd
  have hAB : collectOk [.ok A, .error e, .ok B] = A ++ B := by
    simp [collectOk]
  simp only [mainRun, hAB, length_sortTenders]
  rw [dedup_append_disjoint A B hd, List.length_append]

/-- Witness for C6 (amended) at concrete outcomes with one failing adapter
and number-disjoint survivors. -/
theorem adapter_partial_failure_witness :
    (mainRun ctx0 [.ok [sampleA], .error "boom", .ok [sampleC]]).2 =
      (dedupTenders [sampleA]).length + (dedupTenders [sampleC]).length :=
  (adapter_partial_failure ctx0 [] [] "boom").2.2.2 [sampleA] [sampleC] (by decide)

/-- Counterexample to C6 as stated: with adapters `[ok [sampleA], error,
ok [sampleB]]`, where the two surviving adapters share the number `"100"`,
the final record count is 1, not the sum 2 of the other adapters'
deduplicated record counts. -/
theorem adapter_partial_failure_counterexample :
    (mainRun ctx0 [.ok [sampleA], .error "boom", .ok [sampleB]]).2 = 1 ∧
    (dedupTenders [sampleA]).length + (dedupTenders [sampleB]).length = 2 ∧
    sampleA.source ≠ sampleB.source := by
  decide

/-- C3: `matches_keywords` — exclusion dominates, and truth is exactly
"some inclusion keyword occurs case-insensitively and no exclusion keyword
does". -/
theorem matches_keywords_spec (searchKws excludeKws : List String) (t : String) :
    ((∃ k ∈ excludeKws, isSubL (lowerS k).data (lowerS t).data = true) →
      matches_keywords searchKws excludeKws t = false) ∧
    (matches_keywords searchKws excludeKws t = true ↔
      ((∃ k ∈ searchKws, isSubL (lowerS k).data (lowerS t).data = true) ∧
       ∀ k ∈ excludeKws, ¬ isSubL (lowerS k).data (lowerS t).data = true)) := by
  constructor
  · rintro ⟨k, hk, hsub⟩
    simp only [matches_keywords]
    rw [if_pos (List.any_eq_true.mpr ⟨k, hk, hsub⟩)]
  · simp only [matches_keywords]
    by_cases hex : excludeKws.any (fun k => isSubL (lowerS k).data (lowerS t).data) = true
    · rw [if_pos hex]
      obtain ⟨k, hk, hs⟩ := List.any_eq_true.mp hex
      constructor
      · intro h
        exact absurd h (by simp)
      · rintro ⟨_, hnone⟩
        exact absurd hs (hnone k hk)
    · rw [if_neg hex]
      rw [List.any_eq_true]
      constructor
      · intro h
        exact ⟨h, fun k hk hs => hex (List.any_eq_true.mpr ⟨k, hk, hs⟩)⟩
      · exact fun h => h.1

/-- Witness for C3 at a concrete keyword configuration. -/
theorem matches_keywords_witness :
    matches_keywords ["דוברות"] ["חשמל"] "מכרז דוברות" = true ∧
    matches_keywords ["דוברות"] ["חשמל"] "מכרז דוברות חשמל" = false :=
  ⟨(matches_keywords_spec ["דוברות"] ["חשמל"] "מכרז דוברות").2.mpr
      ⟨⟨"דוברות", by decide, by decide⟩, by decide⟩,
   (matches_keywords_spec ["דוברות"] ["חשמל"] "מכרז דוברות חשמל").1
      ⟨"חשמל", by decide, by decide⟩⟩

/-! ## Lemmas about `categorize` -/

theorem mem_categorizeGo {M : List (String × List String)} {tl c : String} :
    c ∈ categorizeGo M tl ↔
      ∃ kws, (c, kws) ∈ M ∧ c ≠ "אחר" ∧ kwAnyMatch kws tl = true := by
  induction M with
  | nil => simp [categorizeGo]
  | cons p ps ih =>
    obtain ⟨cat, kws⟩ := p
    by_cases hcat : cat = "אחר"
    · rw [categorizeGo, if_pos hcat, ih]
      constructor
      · rintro ⟨kws2, h2, hne, hm⟩
        exact ⟨kws2, List.mem_cons_of_mem _ h2, hne, hm⟩
      · rintro ⟨kws2, h2, hne, hm⟩
        rcases List.mem_cons.mp h2 with heq | h2
        · exfalso
          apply hne
          rw [(Prod.mk.injEq _ _ _ _).mp heq |>.1, hcat]
        · exact ⟨kws2, h2, hne, hm⟩
    · by_cases hm : kwAnyMatch kws tl = true
      · rw [categorizeGo, if_neg hcat, if_pos hm]
        rw [List.mem_cons, ih]
        constructor
        · rintro (rfl | ⟨kws2, h2, hne, hm2⟩)
          · exact ⟨kws, List.mem_cons_self _ _, hcat, hm⟩
          · exact ⟨kws2, List.mem_cons_of_mem _ h2, hne, hm2⟩
        · rintro ⟨kws2, h2, hne, hm2⟩
          rcases List.mem_cons.mp h2 with heq | h2
          · exact Or.inl ((Prod.mk.injEq _ _ _ _).mp heq).1
          · exact Or.inr ⟨kws2, h2, hne, hm2⟩
      · rw [categorizeGo, if_neg hcat, if_neg hm, ih]
        constructor
        · rintro ⟨kws2, h2, hne, hm2⟩
          exact ⟨kws2, List.mem_cons_of_mem _ h2, hne, hm2⟩
        · rintro ⟨kws2, h2, hne, hm2⟩
          rcases List.mem_cons.mp h2 with heq | h2
          · exfalso
            obtain ⟨he1, he2⟩ := (Prod.mk.injEq _ _ _ _).mp heq
            rw [he2] at hm2
            exact hm hm2
          · exact ⟨kws2, h2, hne, hm2⟩

theorem categorizeGo_sublist (M : List (String × List String)) (tl : String) :
    List.Sublist (categorizeGo M tl) (M.map Prod.fst) := by
  induction M with
  | nil => simp [categorizeGo]
  | cons p ps ih =>
    obtain ⟨cat, kws⟩ := p
    simp only [List.map_cons]
    by_cases hcat : cat = "אחר"
    · rw [categorizeGo, if_pos hcat]
      exact ih.cons _
    · by_cases hm : kwAnyMatch kws tl = true
      · rw [categorizeGo, if_neg hcat, if_pos hm]
        exact ih.cons₂ _
      · rw [categorizeGo, if_neg hcat, if_neg hm]
        exact ih.cons _

theorem other_has_no_kws : ∀ kws, ("אחר", kws) ∈ CATEGORY_MAP → kws = [] := by
  intro kws h
  simp only [CATEGORY_MAP, List.mem_cons, List.not_mem_nil, or_false, Prod.mk.injEq] at h
  simpa using h

/-- "t has some synonym of category c as a case-insensitive substring". -/
def taxonomyMatch (t c : String) : Prop :=
  ∃ kws, (c, kws) ∈ CATEGORY_MAP ∧ ∃ kw ∈ kws, isSubL (lowerS kw).data (lowerS t).data = true

/-- C8: `categorize` never returns an empty sequence; its members are
exactly the taxonomy categories with a matching synonym (or the single
default category when none matches); and it is duplicate-free in
taxonomy-declaration order (a sublist of the declared category names). -/
theorem categorize_spec (t : String) :
    categorize t ≠ [] ∧
    (∀ c, c ∈ categorize t ↔
      (taxonomyMatch t c ∨ ((∀ c2, ¬ taxonomyMatch t c2) ∧ c = "אחר"))) ∧
    (categorize t).Nodup ∧
    List.Sublist (categorize t) (CATEGORY_MAP.map Prod.fst) := by
  have hbridge : ∀ c : String,
      (∃ kws, (c, kws) ∈ CATEGORY_MAP ∧ c ≠ "אחר" ∧ kwAnyMatch kws (lowerS t) = true) ↔
        taxonomyMatch t c := by
    intro c
    constructor
    · rintro ⟨kws, hmem, _, hany⟩
      exact ⟨kws, hmem, List.any_eq_true.mp hany⟩
    · rintro ⟨kws, hmem, kw, hkw, hsub⟩
      refine ⟨kws, hmem, ?_, List.any_eq_true.mpr ⟨kw, hkw, hsub⟩⟩
      intro hc
      subst hc
      rw [other_has_no_kws kws hmem] at hkw
      simp at hkw
  by_cases hempty : categorizeGo CATEGORY_MAP (lowerS t) = []
  · have hcat : categorize t = ["אחר"] := by
      simp only [categorize, hempty]
      rfl
    have hnone : ∀ c2, ¬ taxonomyMatch t c2 := by
      intro c2 hc2
      have hmem : c2 ∈ categorizeGo CATEGORY_MAP (lowerS t) :=
        mem_categorizeGo.mpr ((hbridge c2).mpr hc2)
      rw [hempty] at hmem
      simp at hmem
    refine ⟨by simp [hcat], ?_, by simp [hcat], ?_⟩
    · intro c
      rw [hcat]
      constructor
      · intro hc
        simp only [List.mem_singleton] at hc
        exact Or.inr ⟨hnone, hc⟩
      · rintro (hm | ⟨_, rfl⟩)
        · exact absurd hm (hnone c)
        · simp
    · rw [hcat]
      refine List.singleton_sublist.mpr ?_
      simp [CATEGORY_MAP]
  · have hcat : categorize t = categorizeGo CATEGORY_MAP (lowerS t) := by
      simp [categorize, hempty]
    have hex : ∃ c0, taxonomyMatch t c0 := by
      obtain ⟨c0, hc0⟩ := List.exists_mem_of_ne_nil _ hempty
      exact ⟨c0, (hbridge c0).mp (mem_categorizeGo.mp hc0)⟩
    refine ⟨by rw [hcat]; exact hempty, ?_, ?_, ?_⟩
    · intro c
      rw [hcat, mem_categorizeGo, hbridge]
      constructor
      · exact Or.inl
      · rintro (hm | ⟨hnone, rfl⟩)
        · exact hm
        · obtain ⟨c0, hc0⟩ := hex
          exact absurd hc0 (hnone c0)
    · rw [hcat]
      exact (categorizeGo_sublist _ _).nodup (by decide)
    · rw [hcat]
      exact categorizeGo_sublist _ _

/-! ## Lemmas about tender-number extraction -/

theorem mk_ne_empty {ds : List Char} (h : ds ≠ []) : (⟨ds⟩ : String) ≠ "" := by
  intro hc
  apply h
  have : (⟨ds⟩ : String).data = ("" : String).data := by rw [hc]
  simpa using this

theorem append_ne_empty_left (a b : String) (ha : a.data ≠ []) : a ++ b ≠ "" := by
  intro h
  have h2 : (a ++ b).data = [] := congrArg String.data h
  rw [String.data_append] at h2
  exact ha (List.append_eq_nil.mp h2).1

theorem dashed_ne_empty (p x : String) : p ++ "-" ++ x ≠ "" := by
  refine append_ne_empty_left _ _ ?_
  rw [String.data_append]
  intro h
  have := (List.append_eq_nil.mp h).2
  exact absurd this (by decide)

theorem strOr_ne (a b : String) (hb : b ≠ "") : strOr a b ≠ "" := by
  rw [strOr]
  split
  · exact hb
  · assumption

theorem firstSome_eq_some {L : List α} {f : α → Option β} {b : β}
    (h : firstSome L f = some b) : ∃ a ∈ L, f a = some b := by
  induction L with
  | nil => simp [firstSome] at h
  | cons x xs ih =>
    rw [firstSome] at h
    cases hfx : f x with
    | some y =>
      rw [hfx] at h
      exact ⟨x, List.mem_cons_self _ _, hfx.trans h⟩
    | none =>
      rw [hfx] at h
      obtain ⟨a, ha, hfa⟩ := ih h
      exact ⟨a, List.mem_cons_of_mem _ ha, hfa⟩

theorem scanFor_prop {P : α → Prop} {f : List Char → Option α}
    (hf : ∀ l x, f l = some x → P x) :
    ∀ l x, scanFor f l = some x → P x := by
  intro l
  induction l with
  | nil =>
    intro x hx
    rw [scanFor] at hx
    exact hf [] x hx
  | cons c r ih =>
    intro x hx
    rw [scanFor] at hx
    cases hcf : f (c :: r) with
    | some y =>
      rw [hcf] at hx
      injection hx with hx
      exact hx ▸ hf _ y hcf
    | none =>
      rw [hcf] at hx
      exact ih x hx

theorem tryNumPub_ne : ∀ l ds, tryNumPub l = some ds → ds ≠ [] := by
  intro l ds h
  simp only [tryNumPub] at h
  split at h
  · exact absurd h (by simp)
  · split at h
    · exact absurd h (by simp)
    · split at h
      · exact absurd h (by simp)
      · next hguard =>
        injection h with h
        rw [← h]
        exact hguard

theorem tryTenderNumPat_ne : ∀ l ds, tryTenderNumPat l = some ds → ds ≠ [] := by
  intro l ds h
  simp only [tryTenderNumPat] at h
  split at h
  · simp at h
  · obtain ⟨a, _, hfa⟩ := firstSome_eq_some h
    split at hfa
    · simp at hfa
    · injection hfa with hfa
      subst hfa
      assumption

theorem tryLongNum_ne : ∀ l ds, tryLongNum l = some ds → ds ≠ [] := by
  intro l ds h
  simp only [tryLongNum] at h
  split at h
  · split at h
    · split at h
      · next hlen =>
        injection h with h
        intro hc
        rw [h, hc] at hlen
        simp at hlen
      · exact absurd h (by simp)
    · exact absurd h (by simp)
  · exact absurd h (by simp)

/-- `_extract_tender_number` never returns the empty string: every capture
is a nonempty `+`-quantified group, and the fallback is `MR-`-prefixed. -/
theorem mrExtractTenderNumber_ne (text ts : String) :
    mrExtractTenderNumber text ts ≠ "" := by
  rw [mrExtractTenderNumber]
  split
  · next ds hds => exact mk_ne_empty (scanFor_prop tryNumPub_ne _ _ hds)
  · split
    · next ds hds => exact mk_ne_empty (scanFor_prop tryTenderNumPat_ne _ _ hds)
    · split
      · next ds hds => exact mk_ne_empty (scanFor_prop tryLongNum_ne _ _ hds)
      · exact append_ne_empty_left _ _ (by decide)

/-- `_extract_number` never returns the empty string: both branches are
`prefix + '-' + suffix`. -/
theorem munExtractNumber_ne (el : Option String) (p ts : String) :
    munExtractNumber el p ts ≠ "" := by
  rw [munExtractNumber]
  split
  · split
    · exact dashed_ne_empty _ _
    · exact dashed_ne_empty _ _
  · exact dashed_ne_empty _ _

theorem mrParseItem_number_ne {ctx : Ctx} {it : MRItem} {t : Tender}
    (h : mrParseItem ctx it = some t) : t.tenderNumber ≠ "" := by
  simp only [mrParseItem] at h
  split at h
  · exact absurd h (by simp)
  · split at h
    · exact absurd h (by simp)
    · split at h
      · exact absurd h (by simp)
      · split at h
        · next hcond =>
          injection h with h
          rw [← h]
          simp only [Bool.and_eq_true, Bool.not_eq_true', decide_eq_false_iff_not] at hcond
          simpa using hcond.1
        · exact absurd h (by simp)

theorem munParseItem_number_ne {ctx : Ctx} {city : SrcEntry} {it : MunItem} {t : Tender}
    (h : munParseItem ctx city it = some t) : t.tenderNumber ≠ "" := by
  simp only [munParseItem] at h
  split at h
  · exact absurd h (by simp)
  · split at h
    · exact absurd h (by simp)
    · injection h with h
      rw [← h]
      simpa using munExtractNumber_ne it.numEl city.pfx ctx.ts

theorem coParseItem_number_ne {ctx : Ctx} {co : SrcEntry} {el : Option String} {t : Tender}
    (h : coParseItem ctx co el = some t) : t.tenderNumber ≠ "" := by
  simp only [coParseItem] at h
  split at h
  · exact absurd h (by simp)
  · split at h
    · exact absurd h (by simp)
    · injection h with h
      rw [← h]
      simpa using dashed_ne_empty co.pfx ctx.ts

theorem tgParseHtmlItem_number_ne {ctx : Ctx} {el : Option String} {t : Tender}
    (h : tgParseHtmlItem ctx el = some t) : t.tenderNumber ≠ "" := by
  simp only [tgParseHtmlItem] at h
  split at h
  · exact absurd h (by simp)
  · injection h with h
    rw [← h]
    simpa using append_ne_empty_left "GOV-" ctx.ts (by decide)

theorem tgParseApiItem_number {ctx : Ctx} {it : ApiItem} {t : Tender}
    (h : tgParseApiItem ctx it = some t) :
    t.tenderNumber = strOr (it.TenderId.getD "") (it.id.getD "") := by
  simp only [tgParseApiItem] at h
  split at h
  · exact absurd h (by simp)
  · injection h with h
    rw [← h]

/-- C1 (amended): the portal, municipal, company and gov-HTML-fallback
adapters always emit a non-empty `tenderNumber` (discard or synthetic
fallback); the gov-API parse path, however, copies the raw id and is
non-empty only when the item carries a non-empty `TenderId` or `id`. -/
theorem tender_number_nonempty_amended (ctx : Ctx) :
    (∀ items t, t ∈ mrParseResults ctx items → t.tenderNumber ≠ "") ∧
    (∀ city items t, t ∈ munParsePage ctx city items → t.tenderNumber ≠ "") ∧
    (∀ co items t, t ∈ coParseCompany ctx co items → t.tenderNumber ≠ "") ∧
    (∀ items t, t ∈ tgParseHtml ctx items → t.tenderNumber ≠ "") ∧
    (∀ items, (∀ it ∈ items, strOr (it.TenderId.getD "") (it.id.getD "") ≠ "") →
      ∀ t ∈ tgParseApiResults ctx items, t.tenderNumber ≠ "") := by
  refine ⟨?_, ?_, ?_, ?_, ?_⟩
  · intro items t ht
    obtain ⟨it, _, hit⟩ := List.mem_filterMap.mp ht
    exact mrParseItem_number_ne hit
  · intro city items t ht
    obtain ⟨it, _, hit⟩ := List.mem_filterMap.mp ht
    exact munParseItem_number_ne hit
  · intro co items t ht
    obtain ⟨it, _, hit⟩ := List.mem_filterMap.mp ht
    exact coParseItem_number_ne hit
  · intro items t ht
    obtain ⟨it, _, hit⟩ := List.mem_filterMap.mp ht
    exact tgParseHtmlItem_number_ne hit
  · intro items hid t ht
    obtain ⟨it, hmem, hit⟩ := List.mem_filterMap.mp ht
    rw [tgParseApiItem_number hit]
    exact hid it hmem

/-- A gov-API item with a title but neither `TenderId` nor `id`. -/
def apiItemNoId : ApiItem :=
  ⟨some "אספקת שירותי דוברות", none, none, none, none, none, none, none⟩

/-- A gov-API item with a `TenderId`. -/
def apiItemWithId : ApiItem :=
  ⟨some "מכרז יחסי ציבור", none, some "4000613481", none, some "משרד הבריאות", none,
   some "01/06/2026", none⟩

/-- Counterexample to C1 as stated: the gov-API adapter turns an item with a
title but no id into a `Tender` whose `tenderNumber` is the empty string —
the record is neither discarded nor given a synthetic token. -/
theorem tender_number_nonempty_counterexample :
    (tgParseApiResults ctx0 [apiItemNoId]).map Tender.tenderNumber = [""] := by
  decide

/-- Witness for C1 (amended) at a concrete gov-API item carrying an id. -/
theorem tender_number_nonempty_witness :
    ¬("" ∈ (tgParseApiResults ctx0 [apiItemWithId]).map Tender.tenderNumber) := by
  intro hmem
  obtain ⟨t, ht, hnum⟩ := List.mem_map.mp hmem
  exact (tender_number_nonempty_amended ctx0).2.2.2.2 [apiItemWithId] (by decide) t ht hnum

/-- A portal fragment whose text contains the exemption marker, a
status-exemption phrase, and the tender marker, with a resolvable link and
title. -/
def mrItemBoth : MRItem :=
  ⟨"שירותי דוברות - סטטוס: פטור - וגם מכרז בטקסט", [⟨"/p/4000613481", "שירותי דוברות"⟩]⟩

/-- Counterexample to C2 as stated: this fragment's full text contains both
the exemption marker and the tender marker, yet it yields no `Tender`
record (the status-exemption phrase skips it first). -/
theorem exemption_filter_counterexample :
    hasSub mrItemBoth.fullText "פטור" = true ∧
    hasSub mrItemBoth.fullText "מכרז" = true ∧
    findTenderLink mrItemBoth.links = some ⟨"/p/4000613481", "שירותי דוברות"⟩ ∧
    stripS "שירותי דוברות" ≠ "" ∧
    mrParseResults ctx0 [mrItemBoth] = [] := by
  decide

/-- C2 (amended): for a fragment whose full text contains the exemption
marker, the skip holds iff the text contains a status-exemption phrase, an
exemption-notice phrase, or no tender marker; a skipped fragment yields no
record, and a non-skipped one with a resolvable link and non-empty title
yields exactly one record. -/
theorem exemption_filter_amended (ctx : Ctx) (it : MRItem)
    (hp : hasSub it.fullText "פטור" = true) :
    (mrSkipExemption it.fullText = true ↔
      (hasSub it.fullText "סטטוס: פטור" = true ∨ hasSub it.fullText "סטטוס:פטור" = true ∨
       hasSub it.fullText "הודעת פטור" = true ∨ hasSub it.fullText "הודעות פטור" = true ∨
       hasSub it.fullText "מכרז" = false)) ∧
    (mrSkipExemption it.fullText = true → mrParseResults ctx [it] = []) ∧
    (mrSkipExemption it.fullText = false →
      ∀ link, findTenderLink it.links = some link → stripS link.text ≠ "" →
        (mrParseResults ctx [it]).length = 1) := by
  refine ⟨?_, ?_, ?_⟩
  · rw [mrSkipExemption, hp, Bool.true_and]
    simp only [Bool.or_eq_true, Bool.not_eq_true']
    tauto
  · intro hskip
    simp [mrParseResults, mrParseItem, hskip]
  · intro hskip link hlink htitle
    have hnum : strOr (mrExtractNumberFromUrl (mrResolveUrl link.href))
        (mrExtractTenderNumber it.fullText ctx.ts) ≠ "" :=
      strOr_ne _ _ (mrExtractTenderNumber_ne _ _)
    simp [mrParseResults, mrParseItem, hskip, hlink, htitle, hnum]

/-- Witness for C2 (amended) at the concrete status-exemption fragment. -/
theorem exemption_filter_witness :
    mrSkipExemption mrItemBoth.fullText = true ∧ mrParseResults ctx0 [mrItemBoth] = [] :=
  ⟨by decide, (exemption_filter_amended ctx0 mrItemBoth (by decide)).2.1 (by decide)⟩

/-! ## Lemmas about the lexicographic order -/

theorem lexLt_asymm : ∀ a b, lexLt a b = true → lexLt b a = false := by
  intro a
  induction a with
  | nil =>
    intro b h
    cases b with
    | nil => simp [lexLt] at h
    | cons y ys => rfl
  | cons x xs ih =>
    intro b h
    cases b with
    | nil => simp [lexLt] at h
    | cons y ys =>
      rw [lexLt] at h ⊢
      by_cases h1 : x.toNat < y.toNat
      · rw [if_neg (by omega), if_pos h1]
      · by_cases h2 : y.toNat < x.toNat
        · rw [if_neg h1, if_pos h2] at h
          exact absurd h (by simp)
        · rw [if_neg h1, if_neg h2] at h
          rw [if_neg h2, if_neg h1]
          exact ih ys h

theorem lexLt_trans : ∀ a b c, lexLt a b = true → lexLt b c = true → lexLt a c = true := by
  intro a
  induction a with
  | nil =>
    intro b c h1 h2
    cases b with
    | nil => simp [lexLt] at h1
    | cons y ys =>
      cases c with
      | nil => simp [lexLt] at h2
      | cons z zs => rfl
  | cons x xs ih =>
    intro b c h1 h2
    cases b with
    | nil => simp [lexLt] at h1
    | cons y ys =>
      cases c with
      | nil => simp [lexLt] at h2
      | cons z zs =>
        rw [lexLt] at h1 h2 ⊢
        rcases Nat.lt_trichotomy x.toNat y.toNat with hxy | hxy | hxy
        · rcases Nat.lt_trichotomy y.toNat z.toNat with hyz | hyz | hyz
          · rw [if_pos (Nat.lt_trans hxy hyz)]
          · rw [if_pos (hyz ▸ hxy)]
          · rw [if_neg (by omega), if_pos hyz] at h2
            exact absurd h2 (by simp)
        · rw [if_neg (by omega), if_neg (by omega)] at h1
          rcases Nat.lt_trichotomy y.toNat z.toNat with hyz | hyz | hyz
          · rw [if_pos (by omega)]
          · rw [if_neg (by omega), if_neg (by omega)] at h2
            rw [if_neg (by omega), if_neg (by omega)]
            exact ih ys zs h1 h2
          · rw [if_neg (by omega), if_pos hyz] at h2
            exact absurd h2 (by simp)
        · rw [if_neg (by omega), if_pos hxy] at h1
          exact absurd h1 (by simp)

/-- C4: for records with pairwise-distinct deadlines `d1 < d2 < d3` (and
distinct identity keys), the default-mode pipeline lists them ascending
`d1, d2, d3` and historical mode lists them descending `d3, d2, d1`; the
entry point returns the record count, and default mode is exactly the
source's `main`. -/
theorem run_pipeline_sort_order (ctx : Ctx) (t1 t2 t3 : Tender)
    (h12 : lexLt t1.deadline.data t2.deadline.data = true)
    (h23 : lexLt t2.deadline.data t3.deadline.data = true)
    (hn12 : t1.tenderNumber ≠ t2.tenderNumber)
    (hn13 : t1.tenderNumber ≠ t3.tenderNumber)
    (hn23 : t2.tenderNumber ≠ t3.tenderNumber) :
    (run_pipeline false ctx [.ok [t2], .ok [t3], .ok [t1]]).1.tenders = [t1, t2, t3] ∧
    (run_pipeline true ctx [.ok [t2], .ok [t3], .ok [t1]]).1.tenders = [t3, t2, t1] ∧
    (run_pipeline false ctx [.ok [t2], .ok [t3], .ok [t1]]).2 = 3 ∧
    (run_pipeline true ctx [.ok [t2], .ok [t3], .ok [t1]]).2 = 3 ∧
    run_pipeline false ctx [.ok [t2], .ok [t3], .ok [t1]] =
      mainRun ctx [.ok [t2], .ok [t3], .ok [t1]] := by
  have h13 := lexLt_trans _ _ _ h12 h23
  have hf21 := lexLt_asymm _ _ h12
  have hf31 := lexLt_asymm _ _ h13
  have hf32 := lexLt_asymm _ _ h23
  have hn21 := Ne.symm hn12
  have hn31 := Ne.symm hn13
  have hn32 := Ne.symm hn23
  refine ⟨?_, ?_, ?_, ?_, rfl⟩
  · simp [run_pipeline, collectOk, dedupTenders, dedupGo, sortTenders, insertAsc, tenderLtB,
      buildOutput, h12, h23, h13, hf21, hf31, hf32, hn12, hn13, hn23, hn21, hn31, hn32]
  · simp [run_pipeline, collectOk, dedupTenders, dedupGo, sortTendersDesc, sortTenders,
      insertAsc, tenderLtB, buildOutput, h12, h23, h13, hf21, hf31, hf32,
      hn12, hn13, hn23, hn21, hn31, hn32]
  · simp [run_pipeline, collectOk, dedupTenders, dedupGo, sortTenders, insertAsc, tenderLtB,
      buildOutput, h12, h23, h13, hf21, hf31, hf32, hn12, hn13, hn23, hn21, hn31, hn32]
  · simp [run_pipeline, collectOk, dedupTenders, dedupGo, sortTendersDesc, sortTenders,
      insertAsc, tenderLtB, buildOutput, h12, h23, h13, hf21, hf31, hf32,
      hn12, hn13, hn23, hn21, hn31, hn32]

/-- A record with a third distinct number and a middle deadline. -/
def sampleD : Tender :=
  { tenderNumber := "200", title := "מיתוג עירוני", publisher := "משרד ב",
    deadline := "2026-02-02", categories := ["מיתוג"], source := "tender.gov.il",
    url := "https://www.gov.il/he/departments/tenders/200" }

/-- Witness for C4 at three concrete records with distinct deadlines. -/
theorem run_pipeline_sort_order_witness :
    (run_pipeline false ctx0 [.ok [sampleD], .ok [sampleC], .ok [sampleA]]).1.tenders =
      [sampleA, sampleD, sampleC] ∧
    (run_pipeline true ctx0 [.ok [sampleD], .ok [sampleC], .ok [sampleA]]).1.tenders =
      [sampleC, sampleD, sampleA] ∧
    (run_pipeline false ctx0 [.ok [sampleD], .ok [sampleC], .ok [sampleA]]).2 = 3 ∧
    (run_pipeline true ctx0 [.ok [sampleD], .ok [sampleC], .ok [sampleA]]).2 = 3 ∧
    run_pipeline false ctx0 [.ok [sampleD], .ok [sampleC], .ok [sampleA]] =
      mainRun ctx0 [.ok [sampleD], .ok [sampleC], .ok [sampleA]] :=
  run_pipeline_sort_order ctx0 sampleA sampleD sampleC
    (by decide) (by decide) (by decide) (by decide) (by decide)

/-! ## Digit, padding and strip lemmas -/

theorem isDigitC_digitC (k : Nat) : isDigitC (digitC k) = true := by
  rcases k with _|_|_|_|_|_|_|_|_|k <;> rfl

theorem digitC_not_space (k : Nat) : isSpaceC (digitC k) = false := by
  rcases k with _|_|_|_|_|_|_|_|_|k <;> rfl

theorem charVal_digitC {k : Nat} (h : k < 10) : charVal (digitC k) = k := by
  interval_cases k <;> rfl

theorem digitC_toNat {k : Nat} (h : k < 10) : (digitC k).toNat = 48 + k := by
  interval_cases k <;> rfl

theorem digitC_ne_of_not_digit {c : Char} (hc : isDigitC c = false) (k : Nat) :
    digitC k ≠ c := by
  intro h
  have hd := isDigitC_digitC k
  rw [h, hc] at hd
  exact absurd hd (by simp)

theorem dropWhile_eq_self_of_all {p : α → Bool} {l : List α}
    (h : ∀ c ∈ l, p c = false) : l.dropWhile p = l := by
  cases l with
  | nil => rfl
  | cons a as => simp [List.dropWhile_cons, h a (List.mem_cons_self _ _)]

theorem stripL_eq_self {l : List Char} (h : ∀ c ∈ l, isSpaceC c = false) :
    stripL l = l := by
  rw [stripL, dropWhile_eq_self_of_all h,
    dropWhile_eq_self_of_all (fun c hc => h c (List.mem_reverse.mp hc))]
  exact List.reverse_reverse l

theorem no_space_append {l1 l2 : List Char}
    (h1 : ∀ c ∈ l1, isSpaceC c = false) (h2 : ∀ c ∈ l2, isSpaceC c = false) :
    ∀ c ∈ l1 ++ l2, isSpaceC c = false := by
  intro c hc
  rcases List.mem_append.mp hc with h | h
  · exact h1 c h
  · exact h2 c h

theorem no_space_cons {x : Char} {l : List Char}
    (hx : isSpaceC x = false) (h : ∀ c ∈ l, isSpaceC c = false) :
    ∀ c ∈ x :: l, isSpaceC c = false := by
  intro c hc
  rcases List.mem_cons.mp hc with rfl | hc
  · exact hx
  · exact h c hc

theorem no_space_pad2 (n : Nat) : ∀ c ∈ pad2 n, isSpaceC c = false := by
  intro c hc
  rw [pad2] at hc
  rcases List.mem_cons.mp hc with rfl | hc
  · exact digitC_not_space _
  · rcases List.mem_cons.mp hc with rfl | hc
    · exact digitC_not_space _
    · simp at hc

theorem no_space_pad4 (n : Nat) : ∀ c ∈ pad4 n, isSpaceC c = false := by
  rw [pad4]
  exact no_space_append (no_space_pad2 _) (no_space_pad2 _)

/-! ## Token-level parsing lemmas -/

theorem dayAlts_pad2 {D : Nat} (h1 : 1 ≤ D) (h2 : D ≤ 31) (r : List Char) :
    dayAlts (pad2 D ++ r) =
      (D, r) :: (if 10 ≤ D then [(D / 10, digitC (D % 10) :: r)] else []) := by
  interval_cases D <;> rfl

theorem monthAlts_pad2 {M : Nat} (h1 : 1 ≤ M) (h2 : M ≤ 12) (r : List Char) :
    monthAlts (pad2 M ++ r) =
      (M, r) :: (if 10 ≤ M then [(1, digitC (M % 10) :: r)] else []) := by
  interval_cases M <;> rfl

theorem dayAlts_rest {l : List Char} {v : Nat} {r : List Char}
    (h : (v, r) ∈ dayAlts l) : r = l.drop 1 ∨ r = l.drop 2 := by
  cases l with
  | nil => simp [dayAlts] at h
  | cons c1 tl =>
    cases tl with
    | nil =>
      rw [dayAlts] at h
      split at h
      · simp at h
        left
        rw [h.2]
        rfl
      · simp at h
    | cons c2 rest =>
      simp only [dayAlts, List.mem_append] at h
      rcases h with ((h | h) | h) | h
      all_goals
        split at h <;>
          first
            | (simp at h; rcases h with ⟨h1, h2⟩;
               first
                 | (right; rw [h2]; rfl)
                 | (left; rw [h2]; rfl))
            | simp at h

theorem runTok_year4_pad4 {Y : Nat} (h : Y ≤ 9999) (r : List Char) :
    runTok .year4 (pad4 Y ++ r) = [(Y, r)] := by
  have h1 : Y / 100 / 10 < 10 := by omega
  have h2 : Y / 100 % 10 < 10 := Nat.mod_lt _ (by norm_num)
  have h3 : Y % 100 / 10 < 10 := by omega
  have h4 : Y % 100 % 10 < 10 := Nat.mod_lt _ (by norm_num)
  have harith : 1000 * (Y / 100 / 10) + 100 * (Y / 100 % 10) +
      10 * (Y % 100 / 10) + Y % 100 % 10 = Y := by omega
  simp only [pad4, pad2, List.cons_append, List.nil_append, runTok,
    isDigitC_digitC, Bool.and_self, if_true]
  rw [charVal_digitC h1, charVal_digitC h2, charVal_digitC h3, charVal_digitC h4, harith]

theorem runTok_year2_pad2 {k : Nat} (h : k < 100) (r : List Char) :
    runTok .year2 (pad2 k ++ r) = [(k, r)] := by
  have h1 : k / 10 < 10 := by omega
  have h2 : k % 10 < 10 := Nat.mod_lt _ (by norm_num)
  have harith : 10 * (k / 10) + k % 10 = k := by omega
  simp only [pad2, List.cons_append, List.nil_append, runTok,
    isDigitC_digitC, Bool.and_self, if_true]
  rw [charVal_digitC h1, charVal_digitC h2, harith]

theorem runTok_lit_cons (c : Char) (r : List Char) :
    runTok (.lit c) (c :: r) = [(0, r)] := by
  simp [runTok]

theorem runTok_lit_ne {c x : Char} (h : x ≠ c) (r : List Char) :
    runTok (.lit c) (x :: r) = [] := by
  simp [runTok, h]

theorem firstSome_cons_some {f : α → Option β} {a : α} {L : List α} {b : β}
    (h : f a = some b) : firstSome (a :: L) f = some b := by
  rw [firstSome, h]

theorem firstSome_cons_none {f : α → Option β} {a : α} {L : List α}
    (h : f a = none) : firstSome (a :: L) f = firstSome L f := by
  rw [firstSome, h]

theorem firstSome_all_none {L : List α} {f : α → Option β}
    (h : ∀ a ∈ L, f a = none) : firstSome L f = none := by
  induction L with
  | nil => rfl
  | cons a as ih =>
    rw [firstSome, h a (List.mem_cons_self _ _)]
    exact ih (fun x hx => h x (List.mem_cons_of_mem _ hx))

theorem parseToks_cons_none {t : Tok} {ts : List Tok} {l : List Char} {st : PSt}
    (h : ∀ p ∈ runTok t l, parseToks ts p.2 (updSt t p.1 st) = none) :
    parseToks (t :: ts) l st = none := by
  rw [parseToks]
  exact firstSome_all_none h

theorem parseToks_lit_ne {c x : Char} {r : List Char} {ts : List Tok} {st : PSt}
    (h : x ≠ c) : parseToks (.lit c :: ts) (x :: r) st = none := by
  rw [parseToks, runTok_lit_ne h]
  rfl

theorem validDateB_bounds {dt : Date} (h : ValidDateB dt = true) :
    1 ≤ dt.y ∧ dt.y ≤ 9999 ∧ 1 ≤ dt.m ∧ dt.m ≤ 12 ∧ 1 ≤ dt.d ∧ dt.d ≤ 31 := by
  have hdm : daysInMonth dt.y dt.m ≤ 31 := by
    unfold daysInMonth
    split <;> (try split) <;> omega
  simp only [ValidDateB, Bool.and_eq_true, decide_eq_true_eq] at h
  omega

theorem parseToks_head {t : Tok} {ts : List Tok} {l : List Char} {st : PSt}
    {v : Nat} {r : List Char} {tail : List (Nat × List Char)} {out : PSt}
    (halt : runTok t l = (v, r) :: tail)
    (hcont : parseToks ts r (updSt t v st) = some out) :
    parseToks (t :: ts) l st = some out := by
  rw [parseToks, halt]
  exact firstSome_cons_some hcont

theorem parseToks_lit_step_none {c : Char} {ts : List Tok} {r : List Char} {st : PSt}
    (h : parseToks ts r st = none) : parseToks (.lit c :: ts) (c :: r) st = none := by
  apply parseToks_cons_none
  intro p hp
  rw [runTok_lit_cons] at hp
  rcases List.mem_cons.mp hp with rfl | hp
  · exact h
  · simp at hp

theorem parseToks_slash {d m y : Nat} (hd1 : 1 ≤ d) (hd2 : d ≤ 31)
    (hm1 : 1 ≤ m) (hm2 : m ≤ 12) (hy : y ≤ 9999) (st : PSt) :
    parseToks fmtDMYslash (pad2 d ++ '/' :: (pad2 m ++ '/' :: pad4 y)) st =
      some { st with dayF := some d, mF := some m, y4F := some y } := by
  rw [fmtDMYslash]
  refine parseToks_head (by rw [runTok, dayAlts_pad2 hd1 hd2]) ?_
  refine parseToks_head (runTok_lit_cons _ _) ?_
  refine parseToks_head (by rw [runTok, monthAlts_pad2 hm1 hm2]) ?_
  refine parseToks_head (runTok_lit_cons _ _) ?_
  have h := runTok_year4_pad4 hy ([] : List Char)
  rw [List.append_nil] at h
  exact parseToks_head h rfl

theorem parseToks_dot {d m y : Nat} (hd1 : 1 ≤ d) (hd2 : d ≤ 31)
    (hm1 : 1 ≤ m) (hm2 : m ≤ 12) (hy : y ≤ 9999) (st : PSt) :
    parseToks fmtDMYdot (pad2 d ++ '.' :: (pad2 m ++ '.' :: pad4 y)) st =
      some { st with dayF := some d, mF := some m, y4F := some y } := by
  rw [fmtDMYdot]
  refine parseToks_head (by rw [runTok, dayAlts_pad2 hd1 hd2]) ?_
  refine parseToks_head (runTok_lit_cons _ _) ?_
  refine parseToks_head (by rw [runTok, monthAlts_pad2 hm1 hm2]) ?_
  refine parseToks_head (runTok_lit_cons _ _) ?_
  have h := runTok_year4_pad4 hy ([] : List Char)
  rw [List.append_nil] at h
  exact parseToks_head h rfl

theorem parseToks_dash {d m y : Nat} (hd1 : 1 ≤ d) (hd2 : d ≤ 31)
    (hm1 : 1 ≤ m) (hm2 : m ≤ 12) (hy : y ≤ 9999) (st : PSt) :
    parseToks fmtDMYdash (pad2 d ++ '-' :: (pad2 m ++ '-' :: pad4 y)) st =
      some { st with dayF := some d, mF := some m, y4F := some y } := by
  rw [fmtDMYdash]
  refine parseToks_head (by rw [runTok, dayAlts_pad2 hd1 hd2]) ?_
  refine parseToks_head (runTok_lit_cons _ _) ?_
  refine parseToks_head (by rw [runTok, monthAlts_pad2 hm1 hm2]) ?_
  refine parseToks_head (runTok_lit_cons _ _) ?_
  have h := runTok_year4_pad4 hy ([] : List Char)
  rw [List.append_nil] at h
  exact parseToks_head h rfl

theorem parseToks_iso {d m y : Nat} (hd1 : 1 ≤ d) (hd2 : d ≤ 31)
    (hm1 : 1 ≤ m) (hm2 : m ≤ 12) (hy : y ≤ 9999) (st : PSt) :
    parseToks fmtISO (pad4 y ++ '-' :: (pad2 m ++ '-' :: pad2 d)) st =
      some { st with dayF := some d, mF := some m, y4F := some y } := by
  rw [fmtISO]
  refine parseToks_head (runTok_year4_pad4 hy _) ?_
  refine parseToks_head (runTok_lit_cons _ _) ?_
  refine parseToks_head (by rw [runTok, monthAlts_pad2 hm1 hm2]) ?_
  refine parseToks_head (runTok_lit_cons _ _) ?_
  have h := dayAlts_pad2 hd1 hd2 ([] : List Char)
  rw [List.append_nil] at h
  have h2 : runTok .day (pad2 d) =
      (d, ([] : List Char)) :: (if 10 ≤ d then [(d / 10, [digitC (d % 10)])] else []) := by
    rw [runTok, h]
  exact parseToks_head h2 rfl

theorem parseToks_y2 {d m k : Nat} (hd1 : 1 ≤ d) (hd2 : d ≤ 31)
    (hm1 : 1 ≤ m) (hm2 : m ≤ 12) (hk : k < 100) (st : PSt) :
    parseToks fmtDMYy2 (pad2 d ++ '/' :: (pad2 m ++ '/' :: pad2 k)) st =
      some { st with dayF := some d, mF := some m, y2F := some k } := by
  rw [fmtDMYy2]
  refine parseToks_head (by rw [runTok, dayAlts_pad2 hd1 hd2]) ?_
  refine parseToks_head (runTok_lit_cons _ _) ?_
  refine parseToks_head (by rw [runTok, monthAlts_pad2 hm1 hm2]) ?_
  refine parseToks_head (runTok_lit_cons _ _) ?_
  have h := runTok_year2_pad2 hk ([] : List Char)
  rw [List.append_nil] at h
  exact parseToks_head h rfl

theorem parseToks_day_lit_none {D : Nat} (hd1 : 1 ≤ D) (hd2 : D ≤ 31) {c s : Char}
    {rest : List Char} {ts : List Tok} {st : PSt} (hs : s ≠ c) (hcd : isDigitC c = false) :
    parseToks (.day :: .lit c :: ts) (pad2 D ++ s :: rest) st = none := by
  apply parseToks_cons_none
  intro p hp
  rw [runTok, dayAlts_pad2 hd1 hd2] at hp
  rcases List.mem_cons.mp hp with rfl | hp
  · exact parseToks_lit_ne hs
  · by_cases h10 : 10 ≤ D
    · rw [if_pos h10] at hp
      rcases List.mem_cons.mp hp with rfl | hp
      · exact parseToks_lit_ne (digitC_ne_of_not_digit hcd _)
      · simp at hp
    · rw [if_neg h10] at hp
      simp at hp

theorem parseToks_year4_first_none {D : Nat} {s : Char}
    (hs : isDigitC s = false) {rest : List Char} {ts : List Tok} {st : PSt} :
    parseToks (.year4 :: ts) (pad2 D ++ s :: rest) st = none := by
  apply parseToks_cons_none
  intro p hp
  cases rest with
  | nil => simp [pad2, List.cons_append, List.nil_append, runTok] at hp
  | cons x r2 =>
    simp [pad2, List.cons_append, List.nil_append, runTok, hs, isDigitC_digitC] at hp

theorem parseToks_day_first_iso_none {Y : Nat} {c : Char}
    (hcd : isDigitC c = false) {rest : List Char} {ts : List Tok} {st : PSt} :
    parseToks (.day :: .lit c :: ts) (pad4 Y ++ '-' :: rest) st = none := by
  apply parseToks_cons_none
  intro p hp
  rw [runTok] at hp
  obtain ⟨v, r⟩ := p
  rcases dayAlts_rest hp with hr | hr
  · simp only [pad4, pad2, List.cons_append, List.nil_append, List.drop] at hr
    subst hr
    exact parseToks_lit_ne (digitC_ne_of_not_digit hcd _)
  · simp only [pad4, pad2, List.cons_append, List.nil_append, List.drop] at hr
    subst hr
    exact parseToks_lit_ne (digitC_ne_of_not_digit hcd _)

theorem parseToks_fmt1_on_y2_none {d m k : Nat} (hd1 : 1 ≤ d) (hd2 : d ≤ 31)
    (hm1 : 1 ≤ m) (hm2 : m ≤ 12) {st : PSt} :
    parseToks fmtDMYslash (pad2 d ++ '/' :: (pad2 m ++ '/' :: pad2 k)) st = none := by
  rw [fmtDMYslash]
  apply parseToks_cons_none
  intro p hp
  rw [runTok, dayAlts_pad2 hd1 hd2] at hp
  rcases List.mem_cons.mp hp with rfl | hp
  · apply parseToks_lit_step_none
    apply parseToks_cons_none
    intro q hq
    rw [runTok, monthAlts_pad2 hm1 hm2] at hq
    rcases List.mem_cons.mp hq with rfl | hq
    · apply parseToks_lit_step_none
      apply parseToks_cons_none
      intro w hw
      simp [pad2, runTok] at hw
    · by_cases h10 : 10 ≤ m
      · rw [if_pos h10] at hq
        rcases List.mem_cons.mp hq with rfl | hq
        · exact parseToks_lit_ne (digitC_ne_of_not_digit (by decide) _)
        · simp at hq
      · rw [if_neg h10] at hq
        simp at hq
  · by_cases h10 : 10 ≤ d
    · rw [if_pos h10] at hp
      rcases List.mem_cons.mp hp with rfl | hp
      · exact parseToks_lit_ne (digitC_ne_of_not_digit (by decide) _)
      · simp at hp
    · rw [if_neg h10] at hp
      simp at hp

/-! ## Rendered date strings and their parses -/

theorem renderFmt_slash_data (dt : Date) :
    (renderFmt fmtDMYslash dt).data = pad2 dt.d ++ '/' :: (pad2 dt.m ++ '/' :: pad4 dt.y) := by
  simp [renderFmt, fmtDMYslash]

theorem renderFmt_dot_data (dt : Date) :
    (renderFmt fmtDMYdot dt).data = pad2 dt.d ++ '.' :: (pad2 dt.m ++ '.' :: pad4 dt.y) := by
  simp [renderFmt, fmtDMYdot]

theorem renderFmt_iso_data (dt : Date) :
    (renderFmt fmtISO dt).data = pad4 dt.y ++ '-' :: (pad2 dt.m ++ '-' :: pad2 dt.d) := by
  simp [renderFmt, fmtISO]

theorem renderFmt_dash_data (dt : Date) :
    (renderFmt fmtDMYdash dt).data = pad2 dt.d ++ '-' :: (pad2 dt.m ++ '-' :: pad4 dt.y) := by
  simp [renderFmt, fmtDMYdash]

theorem renderFmt_y2_data (dt : Date) :
    (renderFmt fmtDMYy2 dt).data = pad2 dt.d ++ '/' :: (pad2 dt.m ++ '/' :: pad2 (dt.y % 100)) := by
  simp [renderFmt, fmtDMYy2]

theorem strip_render_slash (dt : Date) :
    stripL (renderFmt fmtDMYslash dt).data =
      pad2 dt.d ++ '/' :: (pad2 dt.m ++ '/' :: pad4 dt.y) := by
  rw [renderFmt_slash_data]
  exact stripL_eq_self (no_space_append (no_space_pad2 _) (no_space_cons (by decide)
    (no_space_append (no_space_pad2 _) (no_space_cons (by decide) (no_space_pad4 _)))))

theorem strip_render_dot (dt : Date) :
    stripL (renderFmt fmtDMYdot dt).data =
      pad2 dt.d ++ '.' :: (pad2 dt.m ++ '.' :: pad4 dt.y) := by
  rw [renderFmt_dot_data]
  exact stripL_eq_self (no_space_append (no_space_pad2 _) (no_space_cons (by decide)
    (no_space_append (no_space_pad2 _) (no_space_cons (by decide) (no_space_pad4 _)))))

theorem strip_render_iso (dt : Date) :
    stripL (renderFmt fmtISO dt).data =
      pad4 dt.y ++ '-' :: (pad2 dt.m ++ '-' :: pad2 dt.d) := by
  rw [renderFmt_iso_data]
  exact stripL_eq_self (no_space_append (no_space_pad4 _) (no_space_cons (by decide)
    (no_space_append (no_space_pad2 _) (no_space_cons (by decide) (no_space_pad2 _)))))

theorem strip_render_dash (dt : Date) :
    stripL (renderFmt fmtDMYdash dt).data =
      pad2 dt.d ++ '-' :: (pad2 dt.m ++ '-' :: pad4 dt.y) := by
  rw [renderFmt_dash_data]
  exact stripL_eq_self (no_space_append (no_space_pad2 _) (no_space_cons (by decide)
    (no_space_append (no_space_pad2 _) (no_space_cons (by decide) (no_space_pad4 _)))))

theorem strip_render_y2 (dt : Date) :
    stripL (renderFmt fmtDMYy2 dt).data =
      pad2 dt.d ++ '/' :: (pad2 dt.m ++ '/' :: pad2 (dt.y % 100)) := by
  rw [renderFmt_y2_data]
  exact stripL_eq_self (no_space_append (no_space_pad2 _) (no_space_cons (by decide)
    (no_space_append (no_space_pad2 _) (no_space_cons (by decide) (no_space_pad2 _)))))

theorem date_eta (dt : Date) : (⟨dt.y, dt.m, dt.d⟩ : Date) = dt := rfl

theorem pivotY2_mod {Y : Nat} (h1 : 1969 ≤ Y) (h2 : Y ≤ 2068) : pivotY2 (Y % 100) = Y := by
  rw [pivotY2]
  split <;> omega

theorem parse_date_slash {dt : Date} (h : ValidDateB dt = true) :
    parse_date (renderFmt fmtDMYslash dt) = some (isoRender dt) := by
  obtain ⟨hy1, hy2, hm1, hm2, hd1, hd2⟩ := validDateB_bounds h
  rw [parse_date, date_formats]
  apply firstSome_cons_some
  show (strptimeF fmtDMYslash (stripL (renderFmt fmtDMYslash dt).data)).map isoRender =
    some (isoRender dt)
  rw [strip_render_slash, strptimeF, parseToks_slash hd1 hd2 hm1 hm2 hy2]
  simp [stBuild, date_eta, h]

theorem parse_date_dot {dt : Date} (h : ValidDateB dt = true) :
    parse_date (renderFmt fmtDMYdot dt) = some (isoRender dt) := by
  obtain ⟨hy1, hy2, hm1, hm2, hd1, hd2⟩ := validDateB_bounds h
  have hf1 : (strptimeF fmtDMYslash (stripL (renderFmt fmtDMYdot dt).data)).map isoRender =
      none := by
    rw [strip_render_dot, strptimeF, fmtDMYslash,
      parseToks_day_lit_none hd1 hd2 (by decide) (by decide)]
    rfl
  have hs : (strptimeF fmtDMYdot (stripL (renderFmt fmtDMYdot dt).data)).map isoRender =
      some (isoRender dt) := by
    rw [strip_render_dot, strptimeF, parseToks_dot hd1 hd2 hm1 hm2 hy2]
    simp [stBuild, date_eta, h]
  rw [parse_date, date_formats]
  simp only [firstSome, hf1, hs]

theorem parse_date_iso {dt : Date} (h : ValidDateB dt = true) :
    parse_date (renderFmt fmtISO dt) = some (isoRender dt) := by
  obtain ⟨hy1, hy2, hm1, hm2, hd1, hd2⟩ := validDateB_bounds h
  have hf1 : (strptimeF fmtDMYslash (stripL (renderFmt fmtISO dt).data)).map isoRender =
      none := by
    rw [strip_render_iso, strptimeF, fmtDMYslash, parseToks_day_first_iso_none (by decide)]
    rfl
  have hf2 : (strptimeF fmtDMYdot (stripL (renderFmt fmtISO dt).data)).map isoRender =
      none := by
    rw [strip_render_iso, strptimeF, fmtDMYdot, parseToks_day_first_iso_none (by decide)]
    rfl
  have hs : (strptimeF fmtISO (stripL (renderFmt fmtISO dt).data)).map isoRender =
      some (isoRender dt) := by
    rw [strip_render_iso, strptimeF, parseToks_iso hd1 hd2 hm1 hm2 hy2]
    simp [stBuild, date_eta, h]
  rw [parse_date, date_formats]
  simp only [firstSome, hf1, hf2, hs]

theorem parse_date_dash {dt : Date} (h : ValidDateB dt = true) :
    parse_date (renderFmt fmtDMYdash dt) = some (isoRender dt) := by
  obtain ⟨hy1, hy2, hm1, hm2, hd1, hd2⟩ := validDateB_bounds h
  have hf1 : (strptimeF fmtDMYslash (stripL (renderFmt fmtDMYdash dt).data)).map isoRender =
      none := by
    rw [strip_render_dash, strptimeF, fmtDMYslash,
      parseToks_day_lit_none hd1 hd2 (by decide) (by decide)]
    rfl
  have hf2 : (strptimeF fmtDMYdot (stripL (renderFmt fmtDMYdash dt).data)).map isoRender =
      none := by
    rw [strip_render_dash, strptimeF, fmtDMYdot,
      parseToks_day_lit_none hd1 hd2 (by decide) (by decide)]
    rfl
  have hf3 : (strptimeF fmtISO (stripL (renderFmt fmtDMYdash dt).data)).map isoRender =
      none := by
    rw [strip_render_dash, strptimeF, fmtISO, parseToks_year4_first_none (by decide)]
    rfl
  have hs : (strptimeF fmtDMYdash (stripL (renderFmt fmtDMYdash dt).data)).map isoRender =
      some (isoRender dt) := by
    rw [strip_render_dash, strptimeF, parseToks_dash hd1 hd2 hm1 hm2 hy2]
    simp [stBuild, date_eta, h]
  rw [parse_date, date_formats]
  simp only [firstSome, hf1, hf2, hf3, hs]

theorem parse_date_y2 {dt : Date} (h : ValidDateB dt = true)
    (h1 : 1969 ≤ dt.y) (h2 : dt.y ≤ 2068) :
    parse_date (renderFmt fmtDMYy2 dt) = some (isoRender dt) := by
  obtain ⟨hy1, hy2, hm1, hm2, hd1, hd2⟩ := validDateB_bounds h
  have hf1 : (strptimeF fmtDMYslash (stripL (renderFmt fmtDMYy2 dt).data)).map isoRender =
      none := by
    rw [strip_render_y2, strptimeF, parseToks_fmt1_on_y2_none hd1 hd2 hm1 hm2]
    rfl
  have hf2 : (strptimeF fmtDMYdot (stripL (renderFmt fmtDMYy2 dt).data)).map isoRender =
      none := by
    rw [strip_render_y2, strptimeF, fmtDMYdot,
      parseToks_day_lit_none hd1 hd2 (by decide) (by decide)]
    rfl
  have hf3 : (strptimeF fmtISO (stripL (renderFmt fmtDMYy2 dt).data)).map isoRender =
      none := by
    rw [strip_render_y2, strptimeF, fmtISO, parseToks_year4_first_none (by decide)]
    rfl
  have hf4 : (strptimeF fmtDMYdash (stripL (renderFmt fmtDMYy2 dt).data)).map isoRender =
      none := by
    rw [strip_render_y2, strptimeF, fmtDMYdash,
      parseToks_day_lit_none hd1 hd2 (by decide) (by decide)]
    rfl
  have hs : (strptimeF fmtDMYy2 (stripL (renderFmt fmtDMYy2 dt).data)).map isoRender =
      some (isoRender dt) := by
    rw [strip_render_y2, strptimeF, parseToks_y2 hd1 hd2 hm1 hm2 (Nat.mod_lt _ (by norm_num))]
    simp [stBuild, pivotY2_mod h1 h2, date_eta, h]
  rw [parse_date, date_formats]
  simp only [firstSome, hf1, hf2, hf3, hf4, hs]

/-- C7 (amended): `parse_date` round-trips every valid calendar date through
each of the four 4-digit-year patterns; through the 2-digit-year pattern it
round-trips exactly the pivot window 1969-2068; and it returns `none` (never
an exception — totality is structural) on any string matching no pattern. -/
theorem parse_date_round_trip (dt : Date) (h : ValidDateB dt = true) :
    parse_date (renderFmt fmtDMYslash dt) = some (isoRender dt) ∧
    parse_date (renderFmt fmtDMYdot dt) = some (isoRender dt) ∧
    parse_date (renderFmt fmtISO dt) = some (isoRender dt) ∧
    parse_date (renderFmt fmtDMYdash dt) = some (isoRender dt) ∧
    (1969 ≤ dt.y → dt.y ≤ 2068 → parse_date (renderFmt fmtDMYy2 dt) = some (isoRender dt)) ∧
    (∀ s : String, (∀ fmt ∈ date_formats, strptimeF fmt (stripL s.data) = none) →
      parse_date s = none) :=
  ⟨parse_date_slash h, parse_date_dot h, parse_date_iso h, parse_date_dash h,
   fun h1 h2 => parse_date_y2 h h1 h2,
   fun _ hs => by
     rw [parse_date]
     apply firstSome_all_none
     intro fmt hfmt
     rw [hs fmt hfmt]
     rfl⟩

/-- Counterexample to C7 as stated: the valid calendar date 2070-01-01
rendered in the `'%d/%m/%y'` pattern is `"01/01/70"`, which parses back to
`"1970-01-01"`, not the original date (CPython's 2-digit-year pivot). -/
theorem parse_date_round_trip_counterexample :
    ValidDateB ⟨2070, 1, 1⟩ = true ∧
    renderFmt fmtDMYy2 ⟨2070, 1, 1⟩ = "01/01/70" ∧
    parse_date "01/01/70" = some "1970-01-01" ∧
    isoRender ⟨2070, 1, 1⟩ = "2070-01-01" := by
  decide

/-- Witness for C7 (amended) at the concrete date 2021-03-04. -/
theorem parse_date_round_trip_witness :
    ValidDateB ⟨2021, 3, 4⟩ = true ∧
    parse_date (renderFmt fmtDMYslash ⟨2021, 3, 4⟩) = some (isoRender ⟨2021, 3, 4⟩) ∧
    parse_date (renderFmt fmtDMYy2 ⟨2021, 3, 4⟩) = some (isoRender ⟨2021, 3, 4⟩) :=
  ⟨by decide, (parse_date_round_trip ⟨2021, 3, 4⟩ (by decide)).1,
   (parse_date_round_trip ⟨2021, 3, 4⟩ (by decide)).2.2.2.2.1 (by decide) (by decide)⟩

/-! ## Deadline shape: every adapter deadline is an ISO render of a valid date -/

theorem stBuild_valid {st : PSt} {dt : Date} (h : stBuild st = some dt) :
    ValidDateB dt = true := by
  simp only [stBuild] at h
  split at h
  · next hv =>
    injection h with h
    rw [← h]
    exact hv
  · exact absurd h (by simp)

theorem parse_date_iso_shape {s out : String} (h : parse_date s = some out) :
    ∃ dt, ValidDateB dt = true ∧ out = isoRender dt := by
  rw [parse_date] at h
  obtain ⟨fmt, _, hfmt⟩ := firstSome_eq_some h
  cases hst : strptimeF fmt (stripL s.data) with
  | none =>
    rw [hst] at hfmt
    exact absurd hfmt (by simp)
  | some dt =>
    rw [hst] at hfmt
    simp only [Option.map_some'] at hfmt
    injection hfmt with hfmt
    refine ⟨dt, ?_, hfmt.symm⟩
    rw [strptimeF] at hst
    cases hpt : parseToks fmt (stripL s.data) ⟨none, none, none, none⟩ with
    | none =>
      rw [hpt] at hst
      exact absurd hst (by simp)
    | some st =>
      rw [hpt] at hst
      exact stBuild_valid hst

theorem isoRender_ne_empty (dt : Date) : isoRender dt ≠ "" := by
  apply mk_ne_empty
  simp [pad4, pad2]

theorem pyOrStr_parse_shape {o : Option String} {today : Date}
    (hto : ValidDateB today = true) (ho : o = none ∨ ∃ s, o = parse_date s) :
    ∃ dt, ValidDateB dt = true ∧ pyOrStr o (isoRender today) = isoRender dt := by
  rcases ho with rfl | ⟨s, rfl⟩
  · exact ⟨today, hto, rfl⟩
  · cases hp : parse_date s with
    | none => exact ⟨today, hto, rfl⟩
    | some out =>
      obtain ⟨dt, hdt, rfl⟩ := parse_date_iso_shape hp
      exact ⟨dt, hdt, by simp [pyOrStr, isoRender_ne_empty dt]⟩

theorem mrExtractDeadline_cases (text : String) :
    mrExtractDeadline text = none ∨ ∃ s, mrExtractDeadline text = parse_date s := by
  rw [mrExtractDeadline]
  split
  · right
    exact ⟨_, rfl⟩
  · split
    · right
      exact ⟨_, rfl⟩
    · left
      rfl

theorem munExtractDate_shape (ctx : Ctx) (el : Option String)
    (hto : ValidDateB ctx.today = true) :
    ∃ dt, ValidDateB dt = true ∧ munExtractDate ctx el = isoRender dt := by
  rw [munExtractDate]
  split
  · split
    · next cap _ =>
      exact pyOrStr_parse_shape hto (Or.inr ⟨_, rfl⟩)
    · exact ⟨ctx.today, hto, rfl⟩
  · exact ⟨ctx.today, hto, rfl⟩

theorem mrParseItem_deadline {ctx : Ctx} {it : MRItem} {t : Tender}
    (h : mrParseItem ctx it = some t) :
    t.deadline = pyOrStr (mrExtractDeadline it.fullText) (isoRender ctx.today) := by
  simp only [mrParseItem] at h
  split at h
  · exact absurd h (by simp)
  · split at h
    · exact absurd h (by simp)
    · split at h
      · exact absurd h (by simp)
      · split at h
        · injection h with h
          rw [← h]
        · exact absurd h (by simp)

theorem munParseItem_deadline {ctx : Ctx} {city : SrcEntry} {it : MunItem} {t : Tender}
    (h : munParseItem ctx city it = some t) :
    t.deadline = munExtractDate ctx it.dateEl ∨ t.deadline = isoRender ctx.today := by
  simp only [munParseItem] at h
  split at h
  · exact absurd h (by simp)
  · split at h
    · exact absurd h (by simp)
    · injection h with h
      rw [← h]
      by_cases hd : pyTruthy it.dateEl = true
      · left
        simp [hd]
      · right
        simp [hd]

theorem tgParseApiItem_deadline {ctx : Ctx} {it : ApiItem} {t : Tender}
    (h : tgParseApiItem ctx it = some t) :
    t.deadline = pyOrStr (parse_date (it.EndDate.getD "")) (isoRender ctx.today) := by
  simp only [tgParseApiItem] at h
  split at h
  · exact absurd h (by simp)
  · injection h with h
    rw [← h]

theorem tgParseHtmlItem_deadline {ctx : Ctx} {el : Option String} {t : Tender}
    (h : tgParseHtmlItem ctx el = some t) : t.deadline = isoRender ctx.today := by
  simp only [tgParseHtmlItem] at h
  split at h
  · exact absurd h (by simp)
  · injection h with h
    rw [← h]

theorem coParseItem_deadline {ctx : Ctx} {co : SrcEntry} {el : Option String} {t : Tender}
    (h : coParseItem ctx co el = some t) : t.deadline = isoRender ctx.today := by
  simp only [coParseItem] at h
  split at h
  · exact absurd h (by simp)
  · split at h
    · exact absurd h (by simp)
    · injection h with h
      rw [← h]

/-! ## Lexicographic order on ISO renders is chronological order -/

theorem lexLt_cons_self (c : Char) (r s : List Char) :
    lexLt (c :: r) (c :: s) = lexLt r s := by
  rw [lexLt]
  simp

theorem lexLt_pad2_blocks {x y : Nat} (hx : x < 100) (hy : y < 100) (r s : List Char) :
    lexLt (pad2 x ++ r) (pad2 y ++ s) =
      (if x < y then true else if y < x then false else lexLt r s) := by
  have e1 : (digitC (x / 10)).toNat = 48 + x / 10 := digitC_toNat (by omega)
  have e2 : (digitC (x % 10)).toNat = 48 + x % 10 := digitC_toNat (by omega)
  have e3 : (digitC (y / 10)).toNat = 48 + y / 10 := digitC_toNat (by omega)
  have e4 : (digitC (y % 10)).toNat = 48 + y % 10 := digitC_toNat (by omega)
  simp only [pad2, List.cons_append, List.nil_append, lexLt, e1, e2, e3, e4]
  split_ifs <;> first | rfl | omega

theorem lexLt_isoRender {a b : Date} (ha : ValidDateB a = true) (hb : ValidDateB b = true) :
    (lexLt (isoRender a).data (isoRender b).data = true ↔
      (a.y < b.y ∨ (a.y = b.y ∧ (a.m < b.m ∨ (a.m = b.m ∧ a.d < b.d))))) := by
  obtain ⟨ha1, ha2, ha3, ha4, ha5, ha6⟩ := validDateB_bounds ha
  obtain ⟨hb1, hb2, hb3, hb4, hb5, hb6⟩ := validDateB_bounds hb
  have hdd := lexLt_pad2_blocks (show a.d < 100 by omega) (show b.d < 100 by omega)
    ([] : List Char) []
  rw [List.append_nil, List.append_nil] at hdd
  show lexLt (pad4 a.y ++ '-' :: (pad2 a.m ++ '-' :: pad2 a.d))
      (pad4 b.y ++ '-' :: (pad2 b.m ++ '-' :: pad2 b.d)) = true ↔ _
  simp only [pad4, List.append_assoc]
  rw [lexLt_pad2_blocks (by omega) (by omega),
    lexLt_pad2_blocks (by omega) (by omega), lexLt_cons_self,
    lexLt_pad2_blocks (by omega) (by omega), lexLt_cons_self, hdd]
  split_ifs <;> simp [lexLt] <;> omega

theorem strLeB_isoRender {a b : Date} (ha : ValidDateB a = true) (hb : ValidDateB b = true) :
    (strLeB (isoRender a) (isoRender b) = true ↔
      (a.y < b.y ∨ (a.y = b.y ∧ (a.m < b.m ∨ (a.m = b.m ∧ a.d ≤ b.d))))) := by
  have hlt := lexLt_isoRender hb ha
  have hQ : lexLt (isoRender b).data (isoRender a).data = false ↔
      ¬(b.y < a.y ∨ (b.y = a.y ∧ (b.m < a.m ∨ (b.m = a.m ∧ b.d < a.d)))) := by
    rw [← hlt]
    cases lexLt (isoRender b).data (isoRender a).data <;> simp
  rw [strLeB, Bool.not_eq_true', hQ]
  omega

/-- C10: every `Tender` record any adapter constructs carries a deadline
that is the ISO render `YYYY-MM-DD` of a valid calendar date (a parsed date,
or the run date as fallback), and on such renders the aggregator's plain
lexicographic string comparison coincides with chronological order. -/
theorem deadline_iso_invariant (ctx : Ctx) (hto : ValidDateB ctx.today = true) :
    (∀ items t, t ∈ mrParseResults ctx items →
      ∃ dt, ValidDateB dt = true ∧ t.deadline = isoRender dt) ∧
    (∀ items t, t ∈ tgParseApiResults ctx items →
      ∃ dt, ValidDateB dt = true ∧ t.deadline = isoRender dt) ∧
    (∀ items t, t ∈ tgParseHtml ctx items →
      ∃ dt, ValidDateB dt = true ∧ t.deadline = isoRender dt) ∧
    (∀ city items t, t ∈ munParsePage ctx city items →
      ∃ dt, ValidDateB dt = true ∧ t.deadline = isoRender dt) ∧
    (∀ co items t, t ∈ coParseCompany ctx co items →
      ∃ dt, ValidDateB dt = true ∧ t.deadline = isoRender dt) ∧
    (∀ a b : Date, ValidDateB a = true → ValidDateB b = true →
      (strLeB (isoRender a) (isoRender b) = true ↔
        (a.y < b.y ∨ (a.y = b.y ∧ (a.m < b.m ∨ (a.m = b.m ∧ a.d ≤ b.d)))))) := by
  refine ⟨?_, ?_, ?_, ?_, ?_, fun a b ha hb => strLeB_isoRender ha hb⟩
  · intro items t ht
    obtain ⟨it, _, hit⟩ := List.mem_filterMap.mp ht
    rw [mrParseItem_deadline hit]
    exact pyOrStr_parse_shape hto (mrExtractDeadline_cases it.fullText)
  · intro items t ht
    obtain ⟨it, _, hit⟩ := List.mem_filterMap.mp ht
    rw [tgParseApiItem_deadline hit]
    exact pyOrStr_parse_shape hto (Or.inr ⟨_, rfl⟩)
  · intro items t ht
    obtain ⟨it, _, hit⟩ := List.mem_filterMap.mp ht
    rw [tgParseHtmlItem_deadline hit]
    exact ⟨ctx.today, hto, rfl⟩
  · intro city items t ht
    obtain ⟨it, _, hit⟩ := List.mem_filterMap.mp ht
    rcases munParseItem_deadline hit with hd | hd
    · rw [hd]
      exact munExtractDate_shape ctx it.dateEl hto
    · rw [hd]
      exact ⟨ctx.today, hto, rfl⟩
  · intro co items t ht
    obtain ⟨it, _, hit⟩ := List.mem_filterMap.mp ht
    rw [coParseItem_deadline hit]
    exact ⟨ctx.today, hto, rfl⟩

/-- Witness for C10: the order bridge applied at two concrete valid dates. -/
theorem deadline_iso_invariant_witness :
    strLeB (isoRender ⟨2026, 1, 1⟩) (isoRender ⟨2026, 2, 2⟩) = true :=
  ((deadline_iso_invariant ctx0 (by decide)).2.2.2.2.2 ⟨2026, 1, 1⟩ ⟨2026, 2, 2⟩
    (by decide) (by decide)).mpr (by decide)
